import Mathlib

/-!
# Verification of keras_cv_attention_models building blocks

Shallow embedding of the model-construction code of the repository
`keras_cv_attention_models` (files `common_layers.py`, `volo/volo.py`,
`coatnet/coatnet.py`).

Conventions of the embedding:

* Numeric tensors are total functions from natural-number indices to `ℚ`
  (one argument per tensor axis, the batch axis dropped when a computation
  is independent per example).  Out-of-range index values are junk and the
  theorems only quantify over in-range indices; padding operations carry the
  logical extent of their argument explicitly so that the zero-extension
  matches the framework behaviour on every index that is actually read.
* Pure Python arithmetic (`make_divisible`) is translated to exact integer /
  rational arithmetic: Python `int()` is truncation toward zero, Python `//`
  on integers is floor division (`Int` division by a positive divisor).
* Framework layers with learned weights (`Dense`, 1x1 `Conv2D`) are embedded
  with their weight tensors as explicit arguments, with the framework weight
  layout (`kernel[in_channel][out_channel]`).
* Framework primitives that are not expressible in exact rational arithmetic
  (`softmax`, `sigmoid`, activations, `sqrt`) appear as explicit function
  parameters; a theorem that needs a property of the real function states it
  as a hypothesis that the real function satisfies.
* Graph-wiring claims (which layer objects a builder function inserts, in
  which order) are embedded symbolically: the builder produces a value of a
  small inductive type of layer descriptors, translated line by line from
  the Python source.
-/

namespace KerasCVAttn

/-! ## Small helpers -/

/-- Sum `f 0 + f 1 + ... + f (n-1)`, used to embed tensor contractions
(`Dense`, `matmul`, `reduce_mean`) executably. -/
def sumN : ℕ → (ℕ → ℚ) → ℚ
  | 0, _ => 0
  | n + 1, f => sumN n f + f n

theorem sumN_congr (n : ℕ) (f g : ℕ → ℚ) (h : ∀ i, i < n → f i = g i) :
    sumN n f = sumN n g := by
  induction n with
  | zero => rfl
  | succ m ih =>
    simp only [sumN]
    rw [ih fun i hi => h i (Nat.lt_succ_of_lt hi), h m (Nat.lt_succ_self m)]

theorem sumN_eq_sum_range (n : ℕ) (f : ℕ → ℚ) :
    sumN n f = ∑ i ∈ Finset.range n, f i := by
  induction n with
  | zero => rfl
  | succ m ih => rw [sumN, ih, Finset.sum_range_succ]

/-- Python `int()` on a rational: truncation toward zero. -/
def pyInt (q : ℚ) : ℤ :=
  if 0 ≤ q then ⌊q⌋ else -⌊-q⌋

theorem pyInt_of_nonneg (q : ℚ) (h : 0 ≤ q) : pyInt q = ⌊q⌋ := by
  simp [pyInt, h]

/-! ## `make_divisible` (common_layers.py, lines 168-176)

```python
def make_divisible(vv, divisor=4, min_value=None):
    if min_value is None:
        min_value = divisor
    new_v = max(min_value, int(vv + divisor / 2) // divisor * divisor)
    # Make sure that round down does not go down by more than 10%.
    if new_v < 0.9 * vv:
        new_v += divisor
    return new_v
```

Python `//` on integers is floor division; for a positive divisor this is
exactly the Euclidean division `Int./`. -/

def make_divisible (vv : ℚ) (divisor : ℕ) (min_value : Option ℕ) : ℤ :=
  let mv : ℤ := (min_value.getD divisor : ℕ)
  let new_v : ℤ := max mv (pyInt (vv + (divisor : ℚ) / 2) / (divisor : ℤ) * (divisor : ℤ))
  if (new_v : ℚ) < (9 / 10 : ℚ) * vv then new_v + divisor else new_v

/-- C5: for nonnegative `vv` and positive `divisor` (with `min_value`
defaulting to `divisor`), `make_divisible` returns an integer multiple of
`divisor` that is at least `min_value = divisor`, at least `0.9 * vv`, and
at least `0`. -/
theorem make_divisible_spec (vv : ℚ) (d : ℕ) (hvv : 0 ≤ vv) (hd : 0 < d) :
    (d : ℤ) ∣ make_divisible vv d none ∧
    (d : ℤ) ≤ make_divisible vv d none ∧
    (9 / 10 : ℚ) * vv ≤ (make_divisible vv d none : ℚ) ∧
    0 ≤ make_divisible vv d none := by
  have hdZ : (0 : ℤ) < (d : ℤ) := Int.natCast_pos.mpr hd
  have hdQ : (0 : ℚ) < (d : ℚ) := by exact_mod_cast hd
  have hmain : ∀ nv : ℤ, (d : ℤ) ∣ nv → (d : ℤ) ≤ nv → vv - (d : ℚ) / 2 < (nv : ℚ) →
      ((d : ℤ) ∣ (if (nv : ℚ) < (9 / 10 : ℚ) * vv then nv + d else nv) ∧
        (d : ℤ) ≤ (if (nv : ℚ) < (9 / 10 : ℚ) * vv then nv + d else nv) ∧
        (9 / 10 : ℚ) * vv ≤
          (((if (nv : ℚ) < (9 / 10 : ℚ) * vv then nv + d else nv) : ℤ) : ℚ) ∧
        0 ≤ (if (nv : ℚ) < (9 / 10 : ℚ) * vv then nv + d else nv)) := by
    intro nv h1 h2 h3
    split_ifs with hbr
    · refine ⟨h1.add (dvd_refl _), by linarith, ?_, by linarith⟩
      push_cast
      linarith
    · exact ⟨h1, h2, le_of_not_gt hbr, by linarith⟩
  have hm1 : vv + (d : ℚ) / 2 - 1 < (pyInt (vv + (d : ℚ) / 2) : ℚ) := by
    rw [pyInt_of_nonneg _ (by positivity)]
    have := Int.lt_floor_add_one (vv + (d : ℚ) / 2)
    push_cast at this ⊢
    linarith
  have hsplit := Int.ediv_add_emod (pyInt (vv + (d : ℚ) / 2)) (d : ℤ)
  have hsplitQ := congrArg (fun z : ℤ => (z : ℚ)) hsplit
  push_cast at hsplitQ
  have hmodQ : ((pyInt (vv + (d : ℚ) / 2) % (d : ℤ) : ℤ) : ℚ) ≤ (d : ℚ) - 1 := by
    have h1 : pyInt (vv + (d : ℚ) / 2) % (d : ℤ) < (d : ℤ) :=
      Int.emod_lt_of_pos _ hdZ
    have h2 : pyInt (vv + (d : ℚ) / 2) % (d : ℤ) ≤ (d : ℤ) - 1 := by omega
    exact_mod_cast h2
  have hq1 : vv - (d : ℚ) / 2 <
      ((pyInt (vv + (d : ℚ) / 2) / (d : ℤ) * (d : ℤ) : ℤ) : ℚ) := by
    push_cast
    linarith
  have hdvd : (d : ℤ) ∣ max (d : ℤ) (pyInt (vv + (d : ℚ) / 2) / (d : ℤ) * (d : ℤ)) := by
    rcases le_total ((d : ℤ)) (pyInt (vv + (d : ℚ) / 2) / (d : ℤ) * (d : ℤ)) with h | h
    · rw [max_eq_right h]
      exact dvd_mul_left _ _
    · rw [max_eq_left h]
  have hmaxgt : vv - (d : ℚ) / 2 <
      ((max (d : ℤ) (pyInt (vv + (d : ℚ) / 2) / (d : ℤ) * (d : ℤ)) : ℤ) : ℚ) := by
    have h1 : (pyInt (vv + (d : ℚ) / 2) / (d : ℤ) * (d : ℤ)) ≤
        max (d : ℤ) (pyInt (vv + (d : ℚ) / 2) / (d : ℤ) * (d : ℤ)) := le_max_right _ _
    have h2 : ((pyInt (vv + (d : ℚ) / 2) / (d : ℤ) * (d : ℤ) : ℤ) : ℚ) ≤
        ((max (d : ℤ) (pyInt (vv + (d : ℚ) / 2) / (d : ℤ) * (d : ℤ)) : ℤ) : ℚ) := by
      exact_mod_cast h1
    linarith
  have := hmain _ hdvd (le_max_left _ _) hmaxgt
  simpa only [make_divisible, Option.getD_none] using this

/-- Witness for `make_divisible_spec` at `vv = 10`, `d = 4`
(`make_divisible 10 4 none = 12`). -/
theorem make_divisible_spec_witness :
    (0 : ℚ) ≤ 10 ∧ 0 < 4 ∧
    ((4 : ℤ) ∣ make_divisible 10 4 none ∧
      (4 : ℤ) ≤ make_divisible 10 4 none ∧
      (9 / 10 : ℚ) * 10 ≤ (make_divisible 10 4 none : ℚ) ∧
      0 ≤ make_divisible 10 4 none) :=
  ⟨by norm_num, by norm_num, make_divisible_spec 10 4 (by norm_num) (by norm_num)⟩

/-! ## Stochastic-depth schedules

`CoAtNet` (coatnet.py lines 108-124) and `VOLO` (volo.py lines 395-417)
both assign, inside their block-stacking loops,

```python
block_drop_rate = drop_connect_rate * global_block_id / total_blocks
```

with `total_blocks = sum(num_blocks)` and `global_block_id` incremented
once per constructed block, across all stages. -/

/-- Drop rates of `n` consecutive blocks whose first block has global
construction index `gid`: block `gid + t` gets
`drop_connect_rate * (gid + t) / total_blocks`.  This is the inner
(per-stack) loop body of `CoAtNet` and `VOLO`. -/
def stackRates (dcr : ℚ) (total : ℕ) : ℕ → ℕ → List ℚ
  | _, 0 => []
  | gid, n + 1 => (dcr * gid / total) :: stackRates dcr total (gid + 1) n

/-- The stage-by-stage loop of `CoAtNet` (lines 110-124): one stack per entry
of `num_blocks`, threading the global block counter through the stacks. -/
def coatnetStacks (dcr : ℚ) (total : ℕ) : ℕ → List ℕ → List ℚ
  | _, [] => []
  | gid, nb :: rest =>
      stackRates dcr total gid nb ++ coatnetStacks dcr total (gid + nb) rest

/-- Drop rates of the blocks of a `CoAtNet` model, in construction order. -/
def coatnetDropRates (num_blocks : List ℕ) (dcr : ℚ) : List ℚ :=
  coatnetStacks dcr num_blocks.sum 0 num_blocks

/-- Drop rates of the blocks of a `VOLO` model, in construction order:
`num_blocks[0]` outlook blocks followed by `num_blocks[1]` MHSA blocks,
`global_block_id` carried across the two loops (volo.py lines 395-417). -/
def voloDropRates (nb0 nb1 : ℕ) (dcr : ℚ) : List ℚ :=
  stackRates dcr (nb0 + nb1) 0 nb0 ++ stackRates dcr (nb0 + nb1) nb0 nb1

theorem stackRates_eq (dcr : ℚ) (total : ℕ) (n : ℕ) : ∀ gid,
    stackRates dcr total gid n =
      (List.range n).map (fun t : ℕ => dcr * ((gid + t : ℕ) : ℚ) / total) := by
  induction n with
  | zero => intro gid; rfl
  | succ m ih =>
    intro gid
    simp only [stackRates, List.range_succ_eq_map, List.map_cons, List.map_map,
      List.cons.injEq]
    refine ⟨by norm_num, ?_⟩
    rw [ih (gid + 1)]
    apply List.map_congr_left
    intro t _
    have h : gid + Nat.succ t = gid + 1 + t := by omega
    simp only [Function.comp_apply, h]

theorem coatnetStacks_eq (dcr : ℚ) (total : ℕ) (nbs : List ℕ) : ∀ gid,
    coatnetStacks dcr total gid nbs =
      (List.range nbs.sum).map (fun t : ℕ => dcr * ((gid + t : ℕ) : ℚ) / total) := by
  induction nbs with
  | nil => intro gid; rfl
  | cons nb rest ih =>
    intro gid
    simp only [coatnetStacks, List.sum_cons, List.range_add, List.map_append,
      List.map_map, stackRates_eq, ih (gid + nb)]
    congr 1
    apply List.map_congr_left
    intro t _
    have h : gid + (nb + t) = gid + nb + t := by omega
    simp only [Function.comp_apply, h]

theorem coatnetDropRates_eq (num_blocks : List ℕ) (dcr : ℚ) :
    coatnetDropRates num_blocks dcr =
      (List.range num_blocks.sum).map
        (fun t : ℕ => dcr * (t : ℚ) / num_blocks.sum) := by
  rw [coatnetDropRates, coatnetStacks_eq]
  apply List.map_congr_left
  intro t _
  norm_num

theorem voloDropRates_eq (nb0 nb1 : ℕ) (dcr : ℚ) :
    voloDropRates nb0 nb1 dcr =
      (List.range (nb0 + nb1)).map (fun t : ℕ => dcr * (t : ℚ) / (nb0 + nb1)) := by
  rw [voloDropRates, stackRates_eq, stackRates_eq, List.range_add,
    List.map_append, List.map_map]
  congr 1
  · apply List.map_congr_left
    intro t _
    norm_num
  · apply List.map_congr_left
    intro t _
    simp only [Function.comp_apply]
    push_cast
    ring

/-- Facts (used for both assemblers) about the schedule
`[dcr * i / total : i < total]`. -/
theorem scheduleFacts (dcr : ℚ) (total : ℕ) (hdcr : 0 ≤ dcr) :
    let L := (List.range total).map (fun t : ℕ => dcr * (t : ℚ) / total)
    L.length = total ∧
    (∀ i, i < total → L.getD i 0 = dcr * (i : ℚ) / total) ∧
    L.getD 0 0 = 0 ∧
    (∀ i j, i ≤ j → j < total → L.getD i 0 ≤ L.getD j 0) ∧
    (0 < dcr → ∀ i, i < total → L.getD i 0 < dcr) := by
  intro L
  have hlen : L.length = total := by simp [L]
  have hget : ∀ i, i < total → L.getD i 0 = dcr * (i : ℚ) / total := by
    intro i hi
    rw [List.getD_eq_getElem L 0 (by rw [hlen]; exact hi)]
    simp [L]
  refine ⟨hlen, hget, ?_, ?_, ?_⟩
  · rcases Nat.eq_zero_or_pos total with h | h
    · subst h; rfl
    · rw [hget 0 h]; norm_num
  · intro i j hij hj
    have hi : i < total := lt_of_le_of_lt hij hj
    rw [hget i hi, hget j hj]
    have htot : (0 : ℚ) < total := by
      have : 0 < total := by omega
      exact_mod_cast this
    apply div_le_div_of_nonneg_right ?_ htot.le
    have : (i : ℚ) ≤ (j : ℚ) := by exact_mod_cast hij
    exact mul_le_mul_of_nonneg_left this hdcr
  · intro hpos i hi
    rw [hget i hi]
    have htot : (0 : ℚ) < total := by
      have : 0 < total := Nat.pos_of_ne_zero (by omega)
      exact_mod_cast this
    rw [div_lt_iff₀ htot]
    have : (i : ℚ) < (total : ℚ) := by exact_mod_cast hi
    nlinarith

/-- C4 (amended): in the models built by `CoAtNet` and `VOLO`, the block with
0-based global construction index `i` gets drop rate
`drop_connect_rate * i / total_blocks`; the rates start at 0, are
non-decreasing in construction order, and — provided
`drop_connect_rate > 0` — every rate is strictly below `drop_connect_rate`
(when `drop_connect_rate = 0` every rate equals it). -/
theorem drop_rate_schedule (nbs : List ℕ) (nb0 nb1 : ℕ) (dcr : ℚ)
    (hdcr : 0 ≤ dcr) :
    ((coatnetDropRates nbs dcr).length = nbs.sum ∧
      (∀ i, i < nbs.sum →
        (coatnetDropRates nbs dcr).getD i 0 = dcr * (i : ℚ) / nbs.sum) ∧
      (coatnetDropRates nbs dcr).getD 0 0 = 0 ∧
      (∀ i j, i ≤ j → j < nbs.sum →
        (coatnetDropRates nbs dcr).getD i 0 ≤ (coatnetDropRates nbs dcr).getD j 0) ∧
      (0 < dcr → ∀ i, i < nbs.sum → (coatnetDropRates nbs dcr).getD i 0 < dcr)) ∧
    ((voloDropRates nb0 nb1 dcr).length = nb0 + nb1 ∧
      (∀ i, i < nb0 + nb1 →
        (voloDropRates nb0 nb1 dcr).getD i 0 = dcr * (i : ℚ) / (nb0 + nb1)) ∧
      (voloDropRates nb0 nb1 dcr).getD 0 0 = 0 ∧
      (∀ i j, i ≤ j → j < nb0 + nb1 →
        (voloDropRates nb0 nb1 dcr).getD i 0 ≤ (voloDropRates nb0 nb1 dcr).getD j 0) ∧
      (0 < dcr → ∀ i, i < nb0 + nb1 →
        (voloDropRates nb0 nb1 dcr).getD i 0 < dcr)) := by
  constructor
  · rw [coatnetDropRates_eq]
    exact scheduleFacts dcr nbs.sum hdcr
  · rw [voloDropRates_eq]
    have h := scheduleFacts dcr (nb0 + nb1) hdcr
    simpa using h

/-- Witness for `drop_rate_schedule`: CoAtNet-0 block counts `[2, 3, 5, 2]`,
VOLO-d1 block counts `(4, 14)`, `drop_connect_rate = 1/5`. -/
theorem drop_rate_schedule_witness :
    (0 : ℚ) ≤ 1 / 5 ∧
    (coatnetDropRates [2, 3, 5, 2] (1 / 5)).getD 5 0 = (1 / 5 : ℚ) * 5 / 12 ∧
    (voloDropRates 4 14 (1 / 5)).getD 5 0 = (1 / 5 : ℚ) * 5 / 18 := by
  refine ⟨by norm_num, ?_, ?_⟩
  · have h := (drop_rate_schedule [2, 3, 5, 2] 4 14 (1 / 5) (by norm_num)).1.2.1
      5 (by norm_num)
    rw [h]
    norm_num
  · have h := (drop_rate_schedule [2, 3, 5, 2] 4 14 (1 / 5) (by norm_num)).2.2.1
      5 (by norm_num)
    rw [h]
    norm_num

/-- C4 counterexample: with `drop_connect_rate = 0` (the default) the claim
"every rate is strictly less than drop_connect_rate" fails — in a CoAtNet
schedule with `num_blocks = [1, 1]` the block with global index 1 has rate
`0 * 1 / 2 = 0`, which is not `< 0`. -/
theorem drop_rate_strict_counterexample :
    (coatnetDropRates [1, 1] (0 : ℚ)).getD 1 0 = 0 * (1 : ℚ) / 2 ∧
    ¬ ((coatnetDropRates [1, 1] (0 : ℚ)).getD 1 0 < 0) := by
  constructor
  · norm_num [coatnetDropRates, coatnetStacks, stackRates, List.getD]
  · norm_num [coatnetDropRates, coatnetStacks, stackRates, List.getD]

/-! ## `drop_block` (common_layers.py, lines 136-142)

```python
def drop_block(inputs, drop_rate=0, name=None):
    if drop_rate > 0:
        noise_shape = [None] + [1] * (len(inputs.shape) - 1)  # [None, 1, 1, 1]
        return keras.layers.Dropout(drop_rate, noise_shape=noise_shape, ...)(inputs)
    else:
        return inputs
```

Tensors here keep the batch axis (first argument); the remaining axes are an
abstract position type, since the noise shape collapses all of them. -/

/-- The noise shape `[None] + [1] * (ndim - 1)` computed by `drop_block` for
an input of rank `ndim`. -/
def drop_block_noise_shape (ndim : ℕ) : List (Option ℕ) :=
  none :: List.replicate (ndim - 1) (some 1)

/-- Modelled from the framework: `keras.layers.Dropout` in training mode with
a noise shape that is `1` on every non-batch axis, so the random keep/drop
decision `mask b` is made once per example `b` and broadcast over all other
axes; kept values are rescaled by `1 / (1 - rate)` (inverted dropout). -/
def dropoutPerExample {α : Type} (rate : ℚ) (mask : ℕ → Bool)
    (x : ℕ → α → ℚ) : ℕ → α → ℚ :=
  fun b pos => if mask b then x b pos / (1 - rate) else 0

/-- `drop_block`: inserts the per-example Dropout only when `drop_rate > 0`,
otherwise returns the input unchanged. -/
def drop_block {α : Type} (drop_rate : ℚ) (mask : ℕ → Bool)
    (x : ℕ → α → ℚ) : ℕ → α → ℚ :=
  if 0 < drop_rate then dropoutPerExample drop_rate mask x else x

/-- C8: `drop_block` with `drop_rate = 0` is the identity (no layer
inserted); with `drop_rate > 0` it applies Dropout whose noise shape is
`None` on the batch axis and `1` on every other axis, so during training
each example's tensor is either zeroed as a whole or kept (rescaled by
`1/(1-rate)`) as a whole — never partially zeroed within one example. -/
theorem drop_block_spec {α : Type} (drop_rate : ℚ) (mask : ℕ → Bool)
    (x : ℕ → α → ℚ) (ndim : ℕ) :
    (drop_rate = 0 → drop_block drop_rate mask x = x) ∧
    (1 ≤ ndim → (drop_block_noise_shape ndim).length = ndim) ∧
    (drop_block_noise_shape ndim).getD 0 none = none ∧
    (∀ i, 1 ≤ i → i < ndim → (drop_block_noise_shape ndim).getD i none = some 1) ∧
    (0 < drop_rate → ∀ b,
      (∀ pos, drop_block drop_rate mask x b pos = x b pos / (1 - drop_rate)) ∨
      (∀ pos, drop_block drop_rate mask x b pos = 0)) := by
  refine ⟨?_, ?_, ?_, ?_, ?_⟩
  · intro h
    simp [drop_block, h]
  · intro h
    simp only [drop_block_noise_shape, List.length_cons, List.length_replicate]
    omega
  · rfl
  · intro i h1 h2
    obtain ⟨j, rfl⟩ : ∃ j, i = j + 1 := ⟨i - 1, by omega⟩
    simp only [drop_block_noise_shape, List.getD_cons_succ]
    rw [List.getD_eq_getElem _ _ (by simp [List.length_replicate]; omega)]
    simp
  · intro h b
    cases hm : mask b with
    | true =>
      left
      intro pos
      simp [drop_block, dropoutPerExample, h, hm]
    | false =>
      right
      intro pos
      simp [drop_block, dropoutPerExample, h, hm]

/-- Witness for `drop_block_spec`: rate `1/2`, mask keeping only example 0,
constant input `1`. -/
theorem drop_block_spec_witness :
    ((1 / 2 : ℚ) = 0 →
      drop_block (1 / 2 : ℚ) (fun b => b = 0) (fun _ _ : ℕ => (1 : ℚ)) =
        fun _ _ : ℕ => (1 : ℚ)) ∧
    (1 ≤ 4 → (drop_block_noise_shape 4).length = 4) ∧
    (drop_block_noise_shape 4).getD 0 none = none ∧
    (∀ i, 1 ≤ i → i < 4 → (drop_block_noise_shape 4).getD i none = some 1) ∧
    ((0 : ℚ) < 1 / 2 → ∀ b,
      (∀ pos : ℕ, drop_block (1 / 2 : ℚ) (fun b => b = 0)
          (fun _ _ : ℕ => (1 : ℚ)) b pos = 1 / (1 - 1 / 2)) ∨
      (∀ pos : ℕ, drop_block (1 / 2 : ℚ) (fun b => b = 0)
          (fun _ _ : ℕ => (1 : ℚ)) b pos = 0)) :=
  drop_block_spec (1 / 2) (fun b => b = 0) (fun _ _ : ℕ => (1 : ℚ)) 4

/-! ## `conv2d_no_bias` and `depthwise_conv2d_no_bias`
(common_layers.py, lines 58-96)

Graph-level embedding: the helpers return the list of keras layers they
insert, in application order.  `kernel_size` is embedded in its scalar form
(the `isinstance(kernel_size, (list, tuple))` branch takes `max(kernel_size)`
instead; all call sites in the three model files pass a scalar). -/

/-- Keras layers inserted by the convolution helpers. -/
inductive KLayer
  | zeroPad2D (pad : ℕ)
  | conv2D (filters kernel_size strides groups : ℕ) (padding : String)
  | depthwiseConv2D (kernel_size strides : ℕ) (padding : String)
  deriving DecidableEq

/-- Python `str.upper()` on the ASCII padding strings used here. -/
def pyUpper (s : String) : String := s.map Char.toUpper

/-- The single convolution layer `conv2d_no_bias` ends with: a
`DepthwiseConv2D` if `max(1, groups) == filters`, else a grouped `Conv2D`,
always with `padding="VALID"`. -/
def convMain (filters kernel_size strides groups : ℕ) : KLayer :=
  if max 1 groups = filters then
    KLayer.depthwiseConv2D kernel_size strides "VALID"
  else
    KLayer.conv2D filters kernel_size strides (max 1 groups) "VALID"

/-- `conv2d_no_bias`: zero-pad by `kernel_size // 2` when the padding string
upper-cases to `"SAME"` and that amount is nonzero, then the dispatched
VALID-padded convolution (`convMain`). -/
def conv2d_no_bias (filters kernel_size strides : ℕ) (padding : String)
    (groups : ℕ) : List KLayer :=
  (if pyUpper padding = "SAME" ∧ kernel_size / 2 ≠ 0
    then [KLayer.zeroPad2D (kernel_size / 2)] else [])
  ++ [convMain filters kernel_size strides groups]

/-- `depthwise_conv2d_no_bias`: same deferred-padding scheme, always ending
in a `DepthwiseConv2D` with `padding="valid"`. -/
def depthwise_conv2d_no_bias (kernel_size strides : ℕ)
    (padding : String) : List KLayer :=
  (if pyUpper padding = "SAME" ∧ kernel_size / 2 ≠ 0
    then [KLayer.zeroPad2D (kernel_size / 2)] else [])
  ++ [KLayer.depthwiseConv2D kernel_size strides "valid"]

/-- C9 (amended): both helpers implement SAME padding by deferred explicit
padding — when the padding string compares equal to `"SAME"`
case-insensitively and `kernel_size // 2` is nonzero, a `ZeroPadding2D` of
exactly `kernel_size // 2` is inserted before the VALID-padded convolution;
when the padding is `"VALID"` (or `kernel_size // 2 = 0`) no padding layer
is inserted; and `conv2d_no_bias` builds a `DepthwiseConv2D` instead of a
grouped `Conv2D` exactly when `max(1, groups)` equals `filters`
(for `groups ≥ 1` this is `groups = filters`). -/
theorem conv_padding_spec (filters k strides groups : ℕ) (padding : String) :
    (pyUpper padding = "SAME" ∧ k / 2 ≠ 0 →
      conv2d_no_bias filters k strides padding groups =
        [KLayer.zeroPad2D (k / 2), convMain filters k strides groups] ∧
      depthwise_conv2d_no_bias k strides padding =
        [KLayer.zeroPad2D (k / 2), KLayer.depthwiseConv2D k strides "valid"]) ∧
    (pyUpper padding = "VALID" ∨ k / 2 = 0 →
      conv2d_no_bias filters k strides padding groups =
        [convMain filters k strides groups] ∧
      depthwise_conv2d_no_bias k strides padding =
        [KLayer.depthwiseConv2D k strides "valid"]) ∧
    (KLayer.depthwiseConv2D k strides "VALID" ∈
        conv2d_no_bias filters k strides padding groups ↔
      max 1 groups = filters) := by
  refine ⟨?_, ?_, ?_⟩
  · intro hsp
    constructor
    · rw [conv2d_no_bias, if_pos hsp]
      rfl
    · rw [depthwise_conv2d_no_bias, if_pos hsp]
      rfl
  · intro h
    have hnot : ¬ (pyUpper padding = "SAME" ∧ k / 2 ≠ 0) := by
      rcases h with h | h
      · rintro ⟨hs, _⟩
        rw [h] at hs
        exact absurd hs (by decide)
      · rintro ⟨_, hp⟩
        exact hp h
    constructor
    · rw [conv2d_no_bias, if_neg hnot]
      rfl
    · rw [depthwise_conv2d_no_bias, if_neg hnot]
      rfl
  · constructor
    · intro hmem
      by_contra hne
      rw [conv2d_no_bias, convMain, if_neg hne, List.mem_append] at hmem
      rcases hmem with h | h
      · split_ifs at h <;> simp_all
      · simp_all
    · intro heq
      rw [conv2d_no_bias, convMain, if_pos heq]
      exact List.mem_append_right _ (by simp)

/-- Witness for `conv_padding_spec`: `filters = 8`, `kernel = 3`,
`padding = "same"`, `groups = 8` (the depthwise dispatch case). -/
theorem conv_padding_spec_witness :
    (pyUpper "same" = "SAME" ∧ 3 / 2 ≠ 0 →
      conv2d_no_bias 8 3 1 "same" 8 =
        [KLayer.zeroPad2D (3 / 2), convMain 8 3 1 8] ∧
      depthwise_conv2d_no_bias 3 1 "same" =
        [KLayer.zeroPad2D (3 / 2), KLayer.depthwiseConv2D 3 1 "valid"]) ∧
    (pyUpper "same" = "VALID" ∨ 3 / 2 = 0 →
      conv2d_no_bias 8 3 1 "same" 8 = [convMain 8 3 1 8] ∧
      depthwise_conv2d_no_bias 3 1 "same" =
        [KLayer.depthwiseConv2D 3 1 "valid"]) ∧
    (KLayer.depthwiseConv2D 3 1 "VALID" ∈ conv2d_no_bias 8 3 1 "same" 8 ↔
      max 1 8 = 8) :=
  conv_padding_spec 8 3 1 8 "same"

/-- C9 counterexample: with `groups = 0` and `filters = 1` the code
normalizes `groups` to `max(1, 0) = 1 == filters` and builds a
`DepthwiseConv2D`, although `groups ≠ filters` — so "a DepthwiseConv2D is
built exactly when groups equals filters" is false as stated. -/
theorem conv_groups_counterexample :
    conv2d_no_bias 1 1 1 "VALID" 0 = [KLayer.depthwiseConv2D 1 1 "VALID"] ∧
    (0 : ℕ) ≠ 1 := by
  constructor
  · rw [conv2d_no_bias, convMain, if_neg (by norm_num), if_pos (by norm_num)]
    rfl
  · decide

/-! ## `se_module` (common_layers.py, lines 99-112)

```python
def se_module(inputs, se_ratio=0.25, divisor=8, activation="relu", use_bias=True, name=None):
    filters = inputs.shape[channel_axis]
    reduction = make_divisible(filters * se_ratio, divisor)
    se = tf.reduce_mean(inputs, [h_axis, w_axis], keepdims=True)
    se = keras.layers.Conv2D(reduction, kernel_size=1, use_bias=use_bias, ...)(se)
    se = activation_by_name(se, activation=activation, ...)
    se = keras.layers.Conv2D(filters, kernel_size=1, use_bias=use_bias, ...)(se)
    se = activation_by_name(se, activation="sigmoid", ...)
    return keras.layers.Multiply(...)([inputs, se])
```

Channels-last layout; input grid `height x width x C`.  The two nonlinear
activations (`activation`, `sigmoid`) are framework primitives and appear as
function parameters `act` and `sigm`; the 1x1 convolutions on the pooled
`1 x 1 x C` tensor act per channel and are embedded as dense maps with bias
(`W1 : in -> red`, `W2 : red -> C`). -/

/-- `tf.reduce_mean(inputs, [h_axis, w_axis])` over a `H x W x C` grid. -/
def spatialMean (H W : ℕ) (x : ℕ → ℕ → ℕ → ℚ) (c : ℕ) : ℚ :=
  sumN H (fun i => sumN W (fun j => x i j c)) / ((H : ℚ) * (W : ℚ))

/-- The reduction width `make_divisible(filters * se_ratio, divisor)` of
`se_module` (line 106), as a channel count. -/
def seReduction (filters : ℕ) (se_ratio : ℚ) (divisor : ℕ) : ℕ :=
  (make_divisible ((filters : ℚ) * se_ratio) divisor none).toNat

/-- The per-channel gate of `se_module`: squeeze (spatial mean), 1x1 conv to
`seReduction` channels, `act`, 1x1 conv back to `C` channels, `sigm`. -/
def seGate (H W C : ℕ) (se_ratio : ℚ) (divisor : ℕ)
    (W1 : ℕ → ℕ → ℚ) (b1 : ℕ → ℚ) (act : ℚ → ℚ)
    (W2 : ℕ → ℕ → ℚ) (b2 : ℕ → ℚ) (sigm : ℚ → ℚ)
    (x : ℕ → ℕ → ℕ → ℚ) (c : ℕ) : ℚ :=
  sigm (sumN (seReduction C se_ratio divisor)
      (fun r => act (sumN C (fun cc => spatialMean H W x cc * W1 cc r) + b1 r) * W2 r c)
    + b2 c)

/-- `se_module`: the input multiplied elementwise by the broadcast
`1 x 1 x C` gate. -/
def se_module (H W C : ℕ) (se_ratio : ℚ) (divisor : ℕ)
    (W1 : ℕ → ℕ → ℚ) (b1 : ℕ → ℚ) (act : ℚ → ℚ)
    (W2 : ℕ → ℕ → ℚ) (b2 : ℕ → ℚ) (sigm : ℚ → ℚ)
    (x : ℕ → ℕ → ℕ → ℚ) : ℕ → ℕ → ℕ → ℚ :=
  fun i j c => x i j c * seGate H W C se_ratio divisor W1 b1 act W2 b2 sigm x c

/-- C6: `se_module` returns the input multiplied elementwise by a gate that
(a) is computed solely from the spatial mean of the input, (b) is the same
per-channel value at every spatial position (1x1 spatial extent, broadcast
multiply), (c) lies strictly between 0 and 1 whenever the sigmoid does, and
(d) uses a reduction layer of `make_divisible(filters * se_ratio, divisor)`
channels; the output has the same spatial/channel extent as the input. -/
theorem se_module_spec (H W C : ℕ) (se_ratio : ℚ) (divisor : ℕ)
    (W1 : ℕ → ℕ → ℚ) (b1 : ℕ → ℚ) (act : ℚ → ℚ)
    (W2 : ℕ → ℕ → ℚ) (b2 : ℕ → ℚ) (sigm : ℚ → ℚ)
    (x : ℕ → ℕ → ℕ → ℚ) :
    (∀ i j c, se_module H W C se_ratio divisor W1 b1 act W2 b2 sigm x i j c =
      x i j c * seGate H W C se_ratio divisor W1 b1 act W2 b2 sigm x c) ∧
    (∀ y : ℕ → ℕ → ℕ → ℚ,
      (∀ c, c < C → spatialMean H W y c = spatialMean H W x c) →
      ∀ c, seGate H W C se_ratio divisor W1 b1 act W2 b2 sigm y c =
        seGate H W C se_ratio divisor W1 b1 act W2 b2 sigm x c) ∧
    ((∀ t, 0 < sigm t ∧ sigm t < 1) →
      ∀ c, 0 < seGate H W C se_ratio divisor W1 b1 act W2 b2 sigm x c ∧
        seGate H W C se_ratio divisor W1 b1 act W2 b2 sigm x c < 1) ∧
    seReduction C se_ratio divisor =
      (make_divisible ((C : ℚ) * se_ratio) divisor none).toNat := by
  refine ⟨fun i j c => rfl, ?_, ?_, rfl⟩
  · intro y hy c
    unfold seGate
    congr 1
    congr 1
    apply sumN_congr
    intro r _
    congr 2
    congr 1
    apply sumN_congr
    intro cc hcc
    rw [hy cc hcc]
  · intro hs c
    exact hs _

/-- Witness for `se_module_spec`: 2x2 spatial grid, one channel,
`se_ratio = 1/4`, `divisor = 8`, all-ones weights, `act` the identity and
`sigm` the constant `1/2` (which satisfies the sigmoid range hypothesis). -/
theorem se_module_spec_witness :
    (∀ i j c, se_module 2 2 1 (1 / 4) 8 (fun _ _ => 1) (fun _ => 0) id
        (fun _ _ => 1) (fun _ => 0) (fun _ => 1 / 2) (fun _ _ _ => 1) i j c =
      (fun _ _ _ : ℕ => (1 : ℚ)) i j c *
        seGate 2 2 1 (1 / 4) 8 (fun _ _ => 1) (fun _ => 0) id
          (fun _ _ => 1) (fun _ => 0) (fun _ => 1 / 2) (fun _ _ _ => 1) c) ∧
    ((∀ t : ℚ, 0 < (1 / 2 : ℚ) ∧ (1 / 2 : ℚ) < 1) →
      ∀ c, 0 < seGate 2 2 1 (1 / 4) 8 (fun _ _ => 1) (fun _ => 0) id
          (fun _ _ => 1) (fun _ => 0) (fun _ => 1 / 2) (fun _ _ _ => 1) c ∧
        seGate 2 2 1 (1 / 4) 8 (fun _ _ => 1) (fun _ => 0) id
          (fun _ _ => 1) (fun _ => 0) (fun _ => 1 / 2) (fun _ _ _ => 1) c < 1) := by
  have h := se_module_spec 2 2 1 (1 / 4) 8 (fun _ _ => 1) (fun _ => 0) id
    (fun _ _ => 1) (fun _ => 0) (fun _ => 1 / 2) (fun _ _ _ => 1)
  exact ⟨h.1, fun hr => h.2.2.1 fun t => hr t⟩

/-! ## `res_MBConv` (coatnet.py, lines 16-39)

Graph-level embedding: the block builder produces a symbolic expression tree
whose nodes are the repository helper layers.  `batchnorm_with_activation`
(one BatchNormalization plus one activation) is a single node; the
convolution helpers keep their channel/kernel/stride/padding arguments;
`se_module` and the Dropout of `drop_block` keep their rates. -/

/-- Helper-level layer descriptors for the CoAtNet block builders. -/
inductive CoatOp
  | batchnormAct
  | convNoBias (filters kernel_size strides : ℕ) (padding : String)
  | dwConvNoBias (kernel_size strides : ℕ) (padding : String)
  | seBlock (se_ratio : ℚ)
  | avgPool (pool strides : ℕ)
  | dropoutLayer (rate : ℚ)
  deriving DecidableEq

/-- Symbolic tensor: the input node or a layer / residual-add application. -/
inductive CoatTensor
  | input
  | layer (op : CoatOp) (t : CoatTensor)
  | add (a b : CoatTensor)
  deriving DecidableEq

/-- `drop_block` at graph level (common_layers.py lines 136-142): inserts a
Dropout layer only when the rate is positive. -/
def drop_block_sym (rate : ℚ) (t : CoatTensor) : CoatTensor :=
  if 0 < rate then CoatTensor.layer (CoatOp.dropoutLayer rate) t else t

/-- `res_MBConv`, translated line by line:

```python
preact = batchnorm_with_activation(inputs, ...)
if conv_short_cut:
    shortcut = AvgPool2D(strides, ...)(preact) if strides > 1 else preact
    shortcut = conv2d_no_bias(shortcut, output_channel, 1, strides=1, ...)
else:
    shortcut = inputs
nn = conv2d_no_bias(preact, input_channel * expansion, 1, strides=1, padding="same", ...)
nn = batchnorm_with_activation(nn, ...)
nn = depthwise_conv2d_no_bias(nn, 3, strides=strides, padding="same", ...)
nn = batchnorm_with_activation(nn, ...)
if se_ratio:
    nn = se_module(nn, se_ratio=se_ratio / expansion, ...)
nn = conv2d_no_bias(nn, output_channel, 1, strides=1, padding="same", ...)
nn = drop_block(nn, drop_rate=drop_rate, ...)
return keras.layers.Add()([shortcut, nn])
```

`if se_ratio:` is Python truthiness on a number, i.e. `se_ratio ≠ 0`. -/
def res_MBConv (input_channel output_channel : ℕ) (conv_short_cut : Bool)
    (strides expansion : ℕ) (se_ratio drop_rate : ℚ) : CoatTensor :=
  let preact := CoatTensor.layer .batchnormAct .input
  let shortcut :=
    if conv_short_cut then
      CoatTensor.layer (.convNoBias output_channel 1 1 "VALID")
        (if 1 < strides then CoatTensor.layer (.avgPool strides strides) preact
          else preact)
    else CoatTensor.input
  let nn1 := CoatTensor.layer (.convNoBias (input_channel * expansion) 1 1 "same") preact
  let nn2 := CoatTensor.layer .batchnormAct nn1
  let nn3 := CoatTensor.layer (.dwConvNoBias 3 strides "same") nn2
  let nn4 := CoatTensor.layer .batchnormAct nn3
  let nn5 := if se_ratio ≠ 0 then CoatTensor.layer (.seBlock (se_ratio / (expansion : ℚ))) nn4 else nn4
  let nn6 := CoatTensor.layer (.convNoBias output_channel 1 1 "same") nn5
  CoatTensor.add shortcut (drop_block_sym drop_rate nn6)

/-- Does a symbolic tensor contain a squeeze-excite node? -/
def hasSE : CoatTensor → Bool
  | .input => false
  | .layer op t =>
      (match op with
        | .seBlock _ => true
        | _ => false) || hasSE t
  | .add a b => hasSE a || hasSE b

/-- The residual branch shape asserted by the specification for
`res_MBConv`: pre-activation batch norm, 1x1 expansion convolution to
`input_channel * expansion` channels, 3x3 depthwise convolution carrying the
stride, optionally (iff `se_ratio ≠ 0`) squeeze-excite with ratio
`se_ratio / expansion`, 1x1 projection to `output_channel`, stochastic
depth.  (The batch norms after the expansion and depthwise convolutions and
the `"same"` padding strings come from the code.) -/
def mbconvBranchClaim (input_channel output_channel strides expansion : ℕ)
    (se_ratio drop_rate : ℚ) : CoatTensor :=
  drop_block_sym drop_rate
    (CoatTensor.layer (.convNoBias output_channel 1 1 "same")
      ((if se_ratio ≠ 0 then
          CoatTensor.layer (.seBlock (se_ratio / (expansion : ℚ)))
        else id)
        (CoatTensor.layer .batchnormAct
          (CoatTensor.layer (.dwConvNoBias 3 strides "same")
            (CoatTensor.layer .batchnormAct
              (CoatTensor.layer (.convNoBias (input_channel * expansion) 1 1 "same")
                (CoatTensor.layer .batchnormAct .input)))))))

/-- C7: `res_MBConv` adds a shortcut to a residual branch with exactly the
claimed layer order, and the branch contains a squeeze-excite node exactly
when `se_ratio` is nonzero. -/
theorem res_MBConv_spec (ic oc : ℕ) (csc : Bool) (strides expansion : ℕ)
    (se_ratio drop_rate : ℚ) :
    (∃ shortcut : CoatTensor,
      res_MBConv ic oc csc strides expansion se_ratio drop_rate =
        CoatTensor.add shortcut
          (mbconvBranchClaim ic oc strides expansion se_ratio drop_rate)) ∧
    (hasSE (mbconvBranchClaim ic oc strides expansion se_ratio drop_rate) = true ↔
      se_ratio ≠ 0) := by
  constructor
  · refine ⟨if csc then
        CoatTensor.layer (.convNoBias oc 1 1 "VALID")
          (if 1 < strides then
            CoatTensor.layer (.avgPool strides strides)
              (CoatTensor.layer .batchnormAct .input)
          else CoatTensor.layer .batchnormAct .input)
      else CoatTensor.input, ?_⟩
    unfold res_MBConv mbconvBranchClaim
    by_cases hse : se_ratio ≠ 0 <;> simp [hse]
  · unfold mbconvBranchClaim drop_block_sym
    by_cases hse : se_ratio ≠ 0 <;>
      by_cases hdr : (0 : ℚ) < drop_rate <;>
        simp [hse, hdr, hasSE]

/-! ## `attention_mlp_block` with `attention_type == "class"`
(volo.py, lines 226-269)

```python
nn_0 = inputs[:, :1] if attention_type == "class" else inputs
nn_1 = LayerNormalization(...)(inputs)
# attention_type == "class":
nn_1 = MultiHeadAttention(...)(nn_1[:, :1, :], nn_1)
nn_1 = BiasLayer(...)(nn_1)
if drop_rate > 0:
    nn_1 = Dropout(...)(nn_1)
nn_1 = Add()([nn_0, nn_1])
nn_2 = LayerNormalization(...)(nn_1)
nn_2 = Dense(...)(nn_2)
nn_2 = tf.nn.gelu(nn_2, ...)
nn_2 = Dense(...)(nn_2)
if dropout > 0:
    nn_2 = Dropout(dropout)(nn_2)
if drop_rate > 0:
    nn_2 = Dropout(...)(nn_2)
out = Add()([nn_1, nn_2])
if attention_type == "class":
    out = tf.concat([out, inputs[:, 1:]], axis=1)
```

Embedding: a token sequence is a `List α` (batch dropped, tokens of an
abstract type `α`, since the claim holds for any behaviour of the framework
sublayers).  Per-token framework layers (`LayerNormalization`, `BiasLayer`,
`Dense`, `gelu`) are mapped over the sequence; `MultiHeadAttention` is a
parameter `mha query keyvalue` returning one output token per query token;
the `Add` layer combines sequences elementwise; the Dropout layers are
sequence-to-sequence parameters that (like every keras layer) preserve the
sequence length. -/

/-- The class-token branch of `attention_mlp_block` for
`attention_type == "class"`: everything before the final
`tf.concat([out, inputs[:, 1:]], axis=1)`. -/
def classTokenBranch {α : Type} (drop_rate dropout : ℚ)
    (ln : α → α) (mha : List α → List α → List α) (biasAdd : α → α)
    (addT : α → α → α) (mlpLn dense1 gelu dense2 : α → α)
    (drop1 dropMlp drop2 : List α → List α)
    (inputs : List α) : List α :=
  let nn0 := inputs.take 1
  let nn1a := (mha ((inputs.map ln).take 1) (inputs.map ln)).map biasAdd
  let nn1b := if 0 < drop_rate then drop1 nn1a else nn1a
  let nn1 := List.zipWith addT nn0 nn1b
  let nn2a := (((nn1.map mlpLn).map dense1).map gelu).map dense2
  let nn2b := if 0 < dropout then dropMlp nn2a else nn2a
  let nn2c := if 0 < drop_rate then drop2 nn2b else nn2b
  List.zipWith addT nn1 nn2c

/-- `attention_mlp_block` for `attention_type == "class"`: the class-token
branch result concatenated with the untouched tokens `inputs[:, 1:]`. -/
def attention_mlp_block_class {α : Type} (drop_rate dropout : ℚ)
    (ln : α → α) (mha : List α → List α → List α) (biasAdd : α → α)
    (addT : α → α → α) (mlpLn dense1 gelu dense2 : α → α)
    (drop1 dropMlp drop2 : List α → List α)
    (inputs : List α) : List α :=
  classTokenBranch drop_rate dropout ln mha biasAdd addT mlpLn dense1 gelu
    dense2 drop1 dropMlp drop2 inputs ++ inputs.drop 1

theorem classTokenBranch_length {α : Type} (drop_rate dropout : ℚ)
    (ln : α → α) (mha : List α → List α → List α) (biasAdd : α → α)
    (addT : α → α → α) (mlpLn dense1 gelu dense2 : α → α)
    (drop1 dropMlp drop2 : List α → List α) (inputs : List α)
    (hmha : ∀ q kv, (mha q kv).length = q.length)
    (hd1 : ∀ l, (drop1 l).length = l.length)
    (hdm : ∀ l, (dropMlp l).length = l.length)
    (hd2 : ∀ l, (drop2 l).length = l.length)
    (hlen : 1 ≤ inputs.length) :
    (classTokenBranch drop_rate dropout ln mha biasAdd addT mlpLn dense1 gelu
      dense2 drop1 dropMlp drop2 inputs).length = 1 := by
  unfold classTokenBranch
  split_ifs <;>
    simp [List.length_zipWith, hmha, hd1, hdm, hd2, List.length_take] <;>
    omega

/-- C10: for every token sequence and `attention_type == "class"`,
`attention_mlp_block` leaves every token except the first unchanged —
output token `k` equals input token `k` for all `k ≥ 1` — and the sequence
length is preserved; only token 0 is replaced by the attention + MLP
result. -/
theorem attention_mlp_block_class_frame {α : Type} (drop_rate dropout : ℚ)
    (ln : α → α) (mha : List α → List α → List α) (biasAdd : α → α)
    (addT : α → α → α) (mlpLn dense1 gelu dense2 : α → α)
    (drop1 dropMlp drop2 : List α → List α) (inputs : List α)
    (hmha : ∀ q kv, (mha q kv).length = q.length)
    (hd1 : ∀ l, (drop1 l).length = l.length)
    (hdm : ∀ l, (dropMlp l).length = l.length)
    (hd2 : ∀ l, (drop2 l).length = l.length)
    (hlen : 1 ≤ inputs.length) :
    (attention_mlp_block_class drop_rate dropout ln mha biasAdd addT mlpLn
        dense1 gelu dense2 drop1 dropMlp drop2 inputs).length = inputs.length ∧
    ∀ k, 1 ≤ k →
      (attention_mlp_block_class drop_rate dropout ln mha biasAdd addT mlpLn
          dense1 gelu dense2 drop1 dropMlp drop2 inputs)[k]? = inputs[k]? := by
  have hfl := classTokenBranch_length drop_rate dropout ln mha biasAdd addT
    mlpLn dense1 gelu dense2 drop1 dropMlp drop2 inputs hmha hd1 hdm hd2 hlen
  constructor
  · rw [attention_mlp_block_class, List.length_append, hfl, List.length_drop]
    omega
  · intro k hk
    rw [attention_mlp_block_class,
      List.getElem?_append_right (by rw [hfl]; exact hk), hfl,
      List.getElem?_drop]
    congr 1
    omega

/-- Witness for `attention_mlp_block_class_frame`: rational tokens
`[5, 7, 9]`, identity sublayers, `mha q kv = q`, `addT = (+)`. -/
theorem attention_mlp_block_class_frame_witness :
    (attention_mlp_block_class (0 : ℚ) 0 id (fun q _ => q) id (· + ·) id id
        id id id id id [(5 : ℚ), 7, 9]).length = ([(5 : ℚ), 7, 9]).length ∧
    ∀ k, 1 ≤ k →
      (attention_mlp_block_class (0 : ℚ) 0 id (fun q _ => q) id (· + ·) id id
          id id id id id [(5 : ℚ), 7, 9])[k]? = ([(5 : ℚ), 7, 9])[k]? :=
  attention_mlp_block_class_frame 0 0 id (fun q _ => q) id (· + ·) id id id
    id id id id [(5 : ℚ), 7, 9] (fun _ _ => rfl) (fun _ => rfl) (fun _ => rfl)
    (fun _ => rfl) (by simp)

/-! ## Patch extraction (common_layers.py, lines 178-214)

From here on, spatial tensors are total functions `ℕ → ℕ → ℕ → ℚ`
(row, column, channel; batch dropped — every operation involved is
independent per example).  Out-of-extent values are junk that no theorem
reads; zero padding carries the logical extent of its argument explicitly. -/

/-- `tf.pad(x, [[0,0],[p,p],[p,p],[0,0]])` on an `H x W x C` grid
(channels untouched). -/
def pad2 (p H W : ℕ) (x : ℕ → ℕ → ℕ → ℚ) : ℕ → ℕ → ℕ → ℚ :=
  fun i j c =>
    if p ≤ i ∧ i < H + p ∧ p ≤ j ∧ j < W + p then x (i - p) (j - p) c else 0

/-- `num_patches = int(tf.math.ceil(ww / strides) - 1)` of
`tpu_extract_patches_overlap_1`, where `ww` is the (padded, for SAME)
spatial size.  `ceil(a / b) = (a + b - 1) / b` for natural `a, b > 0`. -/
def tpuNumPatches (k s n : ℕ) (same : Bool) : ℕ :=
  (((if same then n + 2 * (k / 2) else n) + s - 1) / s) - 1

/-- `tpu_extract_patches_overlap_1` on a square `n x n x C` input with
scalar `sizes = k`, `strides = s` (the source reads the tuple forms
element-wise; its `num_patches` and both slice extents come from the
axis-1 size, so the routine is written for square inputs).  Structured
output `(p, q, i, j, c)`: patch indices, in-patch offsets, channel.

The intermediate steps are translated index-wise with
`ov = overlap_s = kernel_size - strides` and `valid_ww = num_patches * s`:

* `center/ww_overlap/hh_overlap/corner_overlap` reshape the four shifted
  `valid_ww`-slices of the padded input by `temp_shape
  (-1, num_patches, s, num_patches, s, C)`, so
  `center[p, i, q, j] = pad_inputs[s*p + i, s*q + j]` etc.;
* `aa = concat([center, ww_overlap[:, :, :, :, -ov:, :]], axis=4)` makes
  in-patch column `j ∈ [s, k)` read `ww_overlap` at column
  `(j - s) + (s - ov)`;
* `bb = concat([hh_overlap[:, :, -ov:, ...], corner_overlap[:, :, -ov:,
  :, -ov:, :]], axis=4)` supplies in-patch rows `i ∈ [s, k)` from row
  `(i - s) + (s - ov)` of the shifted slices; `out = concat([aa, bb],
  axis=2)`;
* `transpose [0, 1, 3, 2, 4, 5]` brings the patch axes together (the
  structured value below is already transposed). -/
def tpuExtractPatches (k s n C : ℕ) (same : Bool) (x : ℕ → ℕ → ℕ → ℚ) :
    ℕ → ℕ → ℕ → ℕ → ℕ → ℚ :=
  let padIn := if same then pad2 (k / 2) n n x else x
  let ov := k - s
  fun p q i j c =>
    if i < s then
      if j < s then padIn (s * p + i) (s * q + j) c
      else padIn (s * p + i) (s * q + ((j - s) + (s - ov)) + ov) c
    else
      if j < s then padIn (s * p + ((i - s) + (s - ov)) + ov) (s * q + j) c
      else padIn (s * p + ((i - s) + (s - ov)) + ov)
             (s * q + ((j - s) + (s - ov)) + ov) c

/-- The final `tf.reshape(out, [-1, num_patches, num_patches, k * k * cc])`:
the last axis flattens `(i, j, c)` row-major. -/
def tpuExtractPatchesFlat (k s n C : ℕ) (same : Bool) (x : ℕ → ℕ → ℕ → ℚ) :
    ℕ → ℕ → ℕ → ℚ :=
  fun p q r =>
    tpuExtractPatches k s n C same x p q (r / (k * C)) (r / C % k) (r % C)

/-- Modelled from the framework: patch count per spatial axis of
`tf.image.extract_patches` — `ceil(n / s)` for SAME, `(n - k) / s + 1` for
VALID. -/
def tfNumPatches (k s n : ℕ) (same : Bool) : ℕ :=
  if same then (n + s - 1) / s else (n - k) / s + 1

/-- Modelled from the framework: the before-padding of
`tf.image.extract_patches` on an axis of size `n` — the total padding
`max((np - 1) * s + k - n, 0)` (natural subtraction) is split with the
smaller half `pad_total / 2` before. -/
def tfPadTop (k s n : ℕ) (same : Bool) : ℕ :=
  (if same then (tfNumPatches k s n same - 1) * s + k - n else 0) / 2

/-- Modelled from the framework: `tf.image.extract_patches` with
`sizes = [1,k,k,1]`, `strides = [1,s,s,1]`, `rates = [1,1,1,1]` on a
`rows x cols x C` image; structured output `(p, q, i, j, c)`.  Patch
`(p, q)` reads the window with top-left corner
`(s*p - pad_top_r, s*q - pad_top_c)`; out-of-image positions are zero. -/
def tfExtractPatches (k s rows cols C : ℕ) (same : Bool)
    (x : ℕ → ℕ → ℕ → ℚ) : ℕ → ℕ → ℕ → ℕ → ℕ → ℚ :=
  fun p q i j c =>
    let ptr := tfPadTop k s rows same
    let ptc := tfPadTop k s cols same
    if ptr ≤ s * p + i ∧ s * p + i < rows + ptr ∧
        ptc ≤ s * q + j ∧ s * q + j < cols + ptc then
      x (s * p + i - ptr) (s * q + j - ptc) c
    else 0

/-- Modelled from the framework: the flattened form of
`tf.image.extract_patches` (last axis `(i, j, c)` row-major, the layout
documented for the `depth` axis). -/
def tfExtractPatchesFlat (k s rows cols C : ℕ) (same : Bool)
    (x : ℕ → ℕ → ℕ → ℚ) : ℕ → ℕ → ℕ → ℚ :=
  fun p q r =>
    tfExtractPatches k s rows cols C same x p q (r / (k * C)) (r / C % k) (r % C)

/-- The concrete `2 x 2` single-channel image `[[1, 2], [3, 4]]`. -/
def img2x2 : ℕ → ℕ → ℕ → ℚ :=
  fun i j _ =>
    if i = 0 ∧ j = 0 then 1
    else if i = 0 ∧ j = 1 then 2
    else if i = 1 ∧ j = 0 then 3
    else if i = 1 ∧ j = 1 then 4
    else 0

/-- C2 counterexample: with kernel 3, strides 2, SAME padding on an
even-sized (2x2) input, the two routines produce patch tensors of the same
shape (1 patch per axis) but different values: the TPU routine pads one
pixel on every side and anchors its window at padded position (0,0) —
image position (-1,-1) — while `tf.image.extract_patches` pads only
after (pad_total = 1, pad_top = 0) and anchors at image position (0,0).
At flattened position r = 4 (in-patch offset (1,1)) the TPU routine reads
image pixel (0,0) = 1 while the framework routine reads (1,1) = 4. -/
theorem tpu_extract_patches_counterexample :
    tpuNumPatches 3 2 2 true = 1 ∧ tfNumPatches 3 2 2 true = 1 ∧
    tpuExtractPatchesFlat 3 2 2 1 true img2x2 0 0 4 = 1 ∧
    tfExtractPatchesFlat 3 2 2 2 1 true img2x2 0 0 4 = 4 ∧
    (1 : ℚ) ≠ 4 := by
  refine ⟨rfl, rfl, ?_, ?_, by norm_num⟩
  · norm_num [tpuExtractPatchesFlat, tpuExtractPatches, pad2, img2x2]
  · norm_num [tfExtractPatchesFlat, tfExtractPatches, tfPadTop, tfNumPatches,
      img2x2]

/-- Every branch of the TPU routine reads the (padded, for SAME) input at
`(s*p + i, s*q + j)`: the slice/concat bookkeeping reassembles exactly the
`k x k` window anchored at `(s*p, s*q)` of the padded input. -/
theorem tpuExtractPatches_read (same : Bool) (n C : ℕ) (x : ℕ → ℕ → ℕ → ℚ)
    (p q i j c : ℕ) (hi : i < 3) (hj : j < 3) :
    tpuExtractPatches 3 2 n C same x p q i j c =
      (if same then pad2 1 n n x else x) (2 * p + i) (2 * q + j) c := by
  simp only [tpuExtractPatches, show (3 : ℕ) / 2 = 1 from by norm_num]
  by_cases h1 : i < 2
  · by_cases h2 : j < 2
    · rw [if_pos h1, if_pos h2]
    · rw [if_pos h1, if_neg h2]
      have e2 : 2 * q + (j - 2 + (2 - (3 - 2))) + (3 - 2) = 2 * q + j := by
        omega
      rw [e2]
  · by_cases h2 : j < 2
    · rw [if_neg h1, if_pos h2]
      have e1 : 2 * p + (i - 2 + (2 - (3 - 2))) + (3 - 2) = 2 * p + i := by
        omega
      rw [e1]
    · rw [if_neg h1, if_neg h2]
      have e1 : 2 * p + (i - 2 + (2 - (3 - 2))) + (3 - 2) = 2 * p + i := by
        omega
      have e2 : 2 * q + (j - 2 + (2 - (3 - 2))) + (3 - 2) = 2 * q + j := by
        omega
      rw [e1, e2]

theorem tfPadTop_same_odd (n : ℕ) (hn : 3 ≤ n) (ho : n % 2 = 1) :
    tfPadTop 3 2 n true = 1 := by
  simp [tfPadTop, tfNumPatches]
  omega

theorem tfPadTop_valid (k s n : ℕ) : tfPadTop k s n false = 0 := by
  simp [tfPadTop]

/-- C2 (amended): with kernel 3, strides 2, rate 1, the TPU patch routine
returns exactly the same patch tensor as `tf.image.extract_patches` in the
two regimes the repository relies on — (i) SAME padding on inputs of odd
spatial size (where the framework splits the total padding of 2 evenly,
matching the routine's symmetric `kernel_size // 2` padding), and (ii)
VALID padding (the call `UnfoldMatmulFold` actually makes, on an input it
has already padded), for any spatial size `≥ 3`.  On even-sized inputs
under SAME the two differ by a one-pixel window offset
(`tpu_extract_patches_counterexample`). -/
theorem tpu_extract_patches_amended (n C : ℕ) (x : ℕ → ℕ → ℕ → ℚ)
    (hn : 3 ≤ n) :
    (n % 2 = 1 →
      tpuNumPatches 3 2 n true = tfNumPatches 3 2 n true ∧
      (∀ p q i j c, i < 3 → j < 3 →
        tpuExtractPatches 3 2 n C true x p q i j c =
          tfExtractPatches 3 2 n n C true x p q i j c) ∧
      (0 < C → ∀ p q r, r < 3 * 3 * C →
        tpuExtractPatchesFlat 3 2 n C true x p q r =
          tfExtractPatchesFlat 3 2 n n C true x p q r)) ∧
    (tpuNumPatches 3 2 n false = tfNumPatches 3 2 n false ∧
      (∀ p q i j c, p < tfNumPatches 3 2 n false →
        q < tfNumPatches 3 2 n false → i < 3 → j < 3 →
        tpuExtractPatches 3 2 n C false x p q i j c =
          tfExtractPatches 3 2 n n C false x p q i j c) ∧
      (0 < C → ∀ p q r, p < tfNumPatches 3 2 n false →
        q < tfNumPatches 3 2 n false → r < 3 * 3 * C →
        tpuExtractPatchesFlat 3 2 n C false x p q r =
          tfExtractPatchesFlat 3 2 n n C false x p q r)) := by
  constructor
  · intro ho
    have hpt := tfPadTop_same_odd n hn ho
    have hstruct : ∀ p q i j c, i < 3 → j < 3 →
        tpuExtractPatches 3 2 n C true x p q i j c =
          tfExtractPatches 3 2 n n C true x p q i j c := by
      intro p q i j c hi hj
      rw [tpuExtractPatches_read true n C x p q i j c hi hj]
      simp [tfExtractPatches, hpt, pad2]
    refine ⟨by simp [tpuNumPatches, tfNumPatches]; omega, hstruct, ?_⟩
    intro hC p q r hr
    have hi : r / (3 * C) < 3 := Nat.div_lt_of_lt_mul (by omega)
    have hj : r / C % 3 < 3 := Nat.mod_lt _ (by norm_num)
    simp only [tpuExtractPatchesFlat, tfExtractPatchesFlat]
    exact hstruct p q _ _ _ hi hj
  · have hstruct : ∀ p q i j c, p < tfNumPatches 3 2 n false →
        q < tfNumPatches 3 2 n false → i < 3 → j < 3 →
        tpuExtractPatches 3 2 n C false x p q i j c =
          tfExtractPatches 3 2 n n C false x p q i j c := by
      intro p q i j c hp hq hi hj
      rw [tpuExtractPatches_read false n C x p q i j c hi hj]
      simp only [tfNumPatches, Bool.false_eq_true, if_false] at hp hq
      simp only [Bool.false_eq_true, if_false, tfExtractPatches,
        tfPadTop_valid]
      rw [if_pos ⟨Nat.zero_le _, by omega, Nat.zero_le _, by omega⟩]
      simp
    refine ⟨by simp [tpuNumPatches, tfNumPatches]; omega, hstruct, ?_⟩
    intro hC p q r hp hq hr
    have hi : r / (3 * C) < 3 := Nat.div_lt_of_lt_mul (by omega)
    have hj : r / C % 3 < 3 := Nat.mod_lt _ (by norm_num)
    simp only [tpuExtractPatchesFlat, tfExtractPatchesFlat]
    exact hstruct p q _ _ _ hp hq hi hj

/-- Witness for `tpu_extract_patches_amended`: odd size `n = 3`, one
channel, the SAME-padding equality evaluated at the centre element of the
single patch (both routines read image pixel `(0, 0)` of `img2x2`
restricted to 3x3, i.e. the value 1). -/
theorem tpu_extract_patches_amended_witness :
    3 ≤ 3 ∧ 3 % 2 = 1 ∧
    tpuExtractPatches 3 2 3 1 true img2x2 0 0 1 1 0 =
      tfExtractPatches 3 2 3 3 1 true img2x2 0 0 1 1 0 ∧
    tpuExtractPatches 3 2 3 1 true img2x2 0 0 1 1 0 = 1 := by
  refine ⟨by norm_num, by norm_num, ?_, ?_⟩
  · exact ((tpu_extract_patches_amended 3 1 img2x2 (by norm_num)).1
      (by norm_num)).2.1 0 0 1 1 0 (by norm_num) (by norm_num)
  · norm_num [tpuExtractPatches, pad2, img2x2]

/-! ## `UnfoldMatmulFold` (volo.py, lines 31-131)

The layer is embedded for the configuration it is used with in
`outlook_attention`: `kernel_size = 3`, `strides = 2`, `padding = 1`.  Then
`patch_pad` is 1 on each spatial side, `out_start_h = out_start_w = 1`,
`overlap_pad = [0, 2*strides - kernel_size] = [0, 1]` extends each kernel
axis from 3 to 4 = 2*strides, and `hh_pad`/`ww_pad` append at most one zero
patch row/column to make the patch counts even. -/

/-- `tf.pad(patches, self.fold_overlap_pad)` on the `[hh, ww, 3, 3, C]`
window block: zero at every index beyond a real patch entry.  (The code
pads each kernel axis to 4 and each patch axis to the next even count; the
embedding zero-extends all four axes unboundedly, which agrees with the
padded tensor on every index the fold reads.) -/
def umfFoldPad (hh ww : ℕ) (mm : ℕ → ℕ → ℕ → ℕ → ℕ → ℚ) :
    ℕ → ℕ → ℕ → ℕ → ℕ → ℚ :=
  fun p q i j c => if p < hh ∧ q < ww ∧ i < 3 ∧ j < 3 then mm p q i j c else 0

/-- `pad_overlap(aa, start_h, start_w)` (volo.py lines 69-76) applied to the
transposed padded window block `aa[p][i][q][j][c]`: select patch rows
`start_h::2` and patch columns `start_w::2`, merge the `(patch, in-patch)`
axis pairs (`u = 4 * r + i` for the phase patches `p = 2 * r + start_h`),
then `tf.pad` by `[strides, 0]` from the top when the phase start is 1
(shift down by 2) and `[0, strides]` from the bottom when it is 0 (no index
shift; the appended zeros are the zero extension). -/
def umfPadOverlap (aa : ℕ → ℕ → ℕ → ℕ → ℕ → ℚ) (sh sw : ℕ) :
    ℕ → ℕ → ℕ → ℚ :=
  fun u v c =>
    if (sh = 1 ∧ u < 2) ∨ (sw = 1 ∧ v < 2) then 0
    else
      aa (2 * ((u - 2 * sh) / 4) + sh) ((u - 2 * sh) % 4)
        (2 * ((v - 2 * sw) / 4) + sw) ((v - 2 * sw) % 4) c

/-- `fold_overlap_1` (volo.py lines 78-82): transpose `[0,1,3,2,4,5]`, add
the four phase grids `pad_overlap(aa, 0/1, 0/1)`. -/
def umfFoldOverlap1 (hh ww : ℕ) (mm : ℕ → ℕ → ℕ → ℕ → ℕ → ℚ) :
    ℕ → ℕ → ℕ → ℚ :=
  let aa := fun p i q j c => umfFoldPad hh ww mm p q i j c
  fun u v c =>
    umfPadOverlap aa 0 0 u v c + umfPadOverlap aa 0 1 u v c +
      umfPadOverlap aa 1 0 u v c + umfPadOverlap aa 1 1 u v c

/-- The unfold + first reshape of `UnfoldMatmulFold.call` (lines 89-102):
SAME-pad the value grid by `kernel_size // 2 = 1`, extract 3x3 stride-2
patches with `tf.image.extract_patches(..., padding="VALID")` (the non-TPU
branch), and reshape the flat patch axis to
`[3*3, num_head, out_channel // num_head]`
(`r = m * (heads * key) + h * key + d`). -/
def umfPatchesR (H W heads key : ℕ) (vv : ℕ → ℕ → ℕ → ℚ) :
    ℕ → ℕ → ℕ → ℕ → ℕ → ℚ :=
  fun p q m h d =>
    tfExtractPatchesFlat 3 2 (H + 2) (W + 2) (heads * key) false
      (pad2 1 H W vv) p q (m * (heads * key) + (h * key + d))

/-- The matmul of `UnfoldMatmulFold.call` (lines 104-110): transpose the
window axis past the head axis, multiply the per-window `9 x 9` attention
with the `9 x key` value block, transpose back, split the window axis to
`3 x 3` and merge `(head, key)` back into the channel axis
(`h = c / key`, `d = c % key`, window entry `m = i * 3 + j`). -/
def umfMM (key : ℕ) (attn : ℕ → ℕ → ℕ → ℕ → ℕ → ℚ)
    (patches : ℕ → ℕ → ℕ → ℕ → ℕ → ℚ) : ℕ → ℕ → ℕ → ℕ → ℕ → ℚ :=
  fun p q i j c =>
    sumN 9 (fun m2 =>
      attn p q (c / key) (i * 3 + j) m2 * patches p q m2 (c / key) (c % key))

/-- `UnfoldMatmulFold.call` for `kernel_size=3, strides=2, padding=1`:
unfold, matmul, fold, and the output slice `[out_start : out_start + H]`
(`out_start = 1`), so output position `(i, j)` is fold position
`(1 + i, 1 + j)`. -/
def umfCall (H W hh ww heads key : ℕ) (vv : ℕ → ℕ → ℕ → ℚ)
    (attn : ℕ → ℕ → ℕ → ℕ → ℕ → ℚ) : ℕ → ℕ → ℕ → ℚ :=
  fun i j c =>
    umfFoldOverlap1 hh ww (umfMM key attn (umfPatchesR H W heads key vv))
      (1 + i) (1 + j) c

/-- The `9 x 9` identity attention matrix, for every window and head. -/
def idAttn9 : ℕ → ℕ → ℕ → ℕ → ℕ → ℚ :=
  fun _ _ _ m n => if m = n then 1 else 0

/-- Number of extracted 3x3 stride-2 windows `(p, q)` (`p < hh`, `q < ww`)
of the padded value grid that cover padded position `(i + 1, j + 1)` — the
padded position of output position `(i, j)` (`pad = kernel_size // 2 = 1`). -/
def windowCover (hh ww i j : ℕ) : ℕ :=
  ((Finset.range hh ×ˢ Finset.range ww).filter
    (fun pq => (2 * pq.1 ≤ i + 1 ∧ i + 1 ≤ 2 * pq.1 + 2) ∧
      (2 * pq.2 ≤ j + 1 ∧ j + 1 ≤ 2 * pq.2 + 2))).card

theorem sumN_zero (n : ℕ) : sumN n (fun _ => (0 : ℚ)) = 0 := by
  induction n with
  | zero => rfl
  | succ m ih => rw [sumN, ih, add_zero]

theorem sumN_ite_eq (n m : ℕ) (f : ℕ → ℚ) (hm : m < n) :
    sumN n (fun j => (if m = j then (1 : ℚ) else 0) * f j) = f m := by
  induction n with
  | zero => omega
  | succ nn ih =>
    rw [sumN]
    rcases Nat.lt_succ_iff_lt_or_eq.mp hm with h | h
    · rw [ih h, if_neg (by omega), zero_mul, add_zero]
    · subst h
      rw [if_pos rfl, one_mul]
      have hz : sumN m (fun j => (if m = j then (1 : ℚ) else 0) * f j) =
          sumN m (fun _ => (0 : ℚ)) := by
        apply sumN_congr
        intro u hu
        rw [if_neg (by omega), zero_mul]
      rw [hz, sumN_zero, zero_add]

/-- With the identity attention, the matmul stage returns the raw window
values: entry `(i, j)` of window `(p, q)` is the padded value grid at
`(2p + i, 2q + j)`. -/
theorem umfMM_idAttn9 (H W heads key : ℕ) (vv : ℕ → ℕ → ℕ → ℚ)
    (p q a b c : ℕ) (hp : p < (H + 1) / 2) (hq : q < (W + 1) / 2)
    (ha : a < 3) (hb : b < 3) (hc : c < heads * key) :
    umfMM key idAttn9 (umfPatchesR H W heads key vv) p q a b c =
      pad2 1 H W vv (2 * p + a) (2 * q + b) c := by
  have hC : 0 < heads * key := by omega
  have hkey : 0 < key := by
    rcases Nat.eq_zero_or_pos key with h | h
    · rw [h, Nat.mul_zero] at hC
      omega
    · exact h
  simp only [umfMM, idAttn9]
  rw [sumN_ite_eq _ _ _ (by omega : a * 3 + b < 9)]
  simp only [umfPatchesR, tfExtractPatchesFlat]
  have hcc : c / key * key + c % key = c := Nat.div_add_mod' c key
  rw [hcc]
  have hrC : ((a * 3 + b) * (heads * key) + c) / (heads * key) = a * 3 + b := by
    rw [show (a * 3 + b) * (heads * key) + c = c + (heads * key) * (a * 3 + b)
      from by ring]
    rw [Nat.add_mul_div_left _ _ hC, Nat.div_eq_of_lt hc, Nat.zero_add]
  have hr3C : ((a * 3 + b) * (heads * key) + c) / (3 * (heads * key)) = a := by
    rw [show 3 * (heads * key) = heads * key * 3 from by ring,
      ← Nat.div_div_eq_div_mul, hrC]
    omega
  have hrm : ((a * 3 + b) * (heads * key) + c) / (heads * key) % 3 = b := by
    rw [hrC]
    omega
  have hrc : ((a * 3 + b) * (heads * key) + c) % (heads * key) = c := by
    rw [show (a * 3 + b) * (heads * key) + c = c + (a * 3 + b) * (heads * key)
      from by ring]
    rw [Nat.add_mul_mod_self_right, Nat.mod_eq_of_lt hc]
  rw [hr3C, hrm, hrc]
  simp only [tfExtractPatches, tfPadTop_valid]
  rw [if_pos ⟨Nat.zero_le _, by omega, Nat.zero_le _, by omega⟩]
  simp

/-- Condition for fold phase `start = sh` (`sh ∈ {0, 1}`) to contribute at
merged row `u`: the phase patch `2 * ((u - 2*sh) / 4) + sh` is a real patch
(below `hh`) and the in-patch offset `(u - 2*sh) % 4` is below the kernel
size 3 (offset 3 is `overlap_pad` zero padding); a phase with `start = 1`
is shifted down by `strides = 2`. -/
def phaseRowOK (hh sh u : ℕ) : Prop :=
  (sh = 1 → 2 ≤ u) ∧ 2 * ((u - 2 * sh) / 4) + sh < hh ∧ (u - 2 * sh) % 4 < 3

instance (hh sh u : ℕ) : Decidable (phaseRowOK hh sh u) := by
  unfold phaseRowOK
  infer_instance

/-- Value of one fold phase on the identity-attention window block: the
padded value grid at `(u, v)` if the phase contributes there, else 0. -/
theorem umfPhase_eval (H W heads key : ℕ) (vv : ℕ → ℕ → ℕ → ℚ)
    (sh sw u v c : ℕ) (hsh : sh ≤ 1) (hsw : sw ≤ 1) (hc : c < heads * key) :
    umfPadOverlap
      (fun p i2 q j2 cc =>
        umfFoldPad ((H + 1) / 2) ((W + 1) / 2)
          (umfMM key idAttn9 (umfPatchesR H W heads key vv)) p q i2 j2 cc)
      sh sw u v c =
      if phaseRowOK ((H + 1) / 2) sh u ∧ phaseRowOK ((W + 1) / 2) sw v then
        pad2 1 H W vv u v c
      else 0 := by
  simp only [umfPadOverlap]
  by_cases hg : (sh = 1 ∧ u < 2) ∨ (sw = 1 ∧ v < 2)
  · rw [if_pos hg, if_neg]
    rintro ⟨⟨h1a, _, _⟩, ⟨h2a, _, _⟩⟩
    rcases hg with ⟨hs, hu⟩ | ⟨hs, hv⟩
    · exact absurd (h1a hs) (by omega)
    · exact absurd (h2a hs) (by omega)
  · rw [if_neg hg]
    simp only [umfFoldPad]
    by_cases hok : phaseRowOK ((H + 1) / 2) sh u ∧ phaseRowOK ((W + 1) / 2) sw v
    · have hok2 := hok
      obtain ⟨⟨h1a, ha2, ha3⟩, ⟨h1b, hb2, hb3⟩⟩ := hok2
      rw [if_pos ⟨ha2, hb2, ha3, hb3⟩, if_pos hok,
        umfMM_idAttn9 H W heads key vv _ _ _ _ c ha2 hb2 ha3 hb3 hc]
      have e1 : 2 * (2 * ((u - 2 * sh) / 4) + sh) + (u - 2 * sh) % 4 = u := by
        omega
      have e2 : 2 * (2 * ((v - 2 * sw) / 4) + sw) + (v - 2 * sw) % 4 = v := by
        omega
      rw [e1, e2]
    · rw [if_neg fun hinner => hok (by unfold phaseRowOK; omega), if_neg hok]

/-- Number of real patches `p < hh` whose window `[2p, 2p+2]` covers row
`u`. -/
def rowCover (hh u : ℕ) : ℕ :=
  ((Finset.range hh).filter (fun p => 2 * p ≤ u ∧ u ≤ 2 * p + 2)).card

theorem windowCover_eq (hh ww i j : ℕ) :
    windowCover hh ww i j = rowCover hh (i + 1) * rowCover ww (j + 1) := by
  unfold windowCover rowCover
  have hsplit : (Finset.range hh ×ˢ Finset.range ww).filter
      (fun pq => (2 * pq.1 ≤ i + 1 ∧ i + 1 ≤ 2 * pq.1 + 2) ∧
        (2 * pq.2 ≤ j + 1 ∧ j + 1 ≤ 2 * pq.2 + 2)) =
      ((Finset.range hh).filter (fun p => 2 * p ≤ i + 1 ∧ i + 1 ≤ 2 * p + 2)) ×ˢ
        ((Finset.range ww).filter (fun p => 2 * p ≤ j + 1 ∧ j + 1 ≤ 2 * p + 2)) := by
    ext pq
    simp only [Finset.mem_filter, Finset.mem_product]
    tauto
  rw [hsplit, Finset.card_product]

/-- The windows covering a row split by patch parity into the two fold
phases, at most one window per phase. -/
theorem rowCover_phases (hh u : ℕ) :
    rowCover hh u =
      (if phaseRowOK hh 0 u then 1 else 0) +
        (if phaseRowOK hh 1 u then 1 else 0) := by
  by_cases h0 : phaseRowOK hh 0 u <;> by_cases h1 : phaseRowOK hh 1 u <;>
    [rw [if_pos h0, if_pos h1]; rw [if_pos h0, if_neg h1];
      rw [if_neg h0, if_pos h1]; rw [if_neg h0, if_neg h1]] <;>
    have h0u := h0 <;> have h1u := h1 <;>
    unfold phaseRowOK at h0u h1u <;> rw [rowCover]
  · have hset : (Finset.range hh).filter (fun p => 2 * p ≤ u ∧ u ≤ 2 * p + 2) =
        {2 * ((u - 2 * 0) / 4), 2 * ((u - 2 * 1) / 4) + 1} := by
      ext p
      simp only [Finset.mem_filter, Finset.mem_range, Finset.mem_insert,
        Finset.mem_singleton]
      omega
    rw [hset,
      Finset.card_insert_of_not_mem
        (by simp only [Finset.mem_singleton]; omega),
      Finset.card_singleton]
  · have hset : (Finset.range hh).filter (fun p => 2 * p ≤ u ∧ u ≤ 2 * p + 2) =
        {2 * ((u - 2 * 0) / 4)} := by
      ext p
      simp only [Finset.mem_filter, Finset.mem_range, Finset.mem_singleton]
      omega
    rw [hset, Finset.card_singleton]
  · have hset : (Finset.range hh).filter (fun p => 2 * p ≤ u ∧ u ≤ 2 * p + 2) =
        {2 * ((u - 2 * 1) / 4) + 1} := by
      ext p
      simp only [Finset.mem_filter, Finset.mem_range, Finset.mem_singleton]
      omega
    rw [hset, Finset.card_singleton]
  · have hset : (Finset.range hh).filter (fun p => 2 * p ≤ u ∧ u ≤ 2 * p + 2) =
        (∅ : Finset ℕ) := by
      ext p
      simp only [Finset.mem_filter, Finset.mem_range, Finset.not_mem_empty,
        iff_false]
      omega
    rw [hset, Finset.card_empty]

/-- C3: for `kernel_size=3, strides=2, padding=1` and every value tensor
`vv` of the declared final output shape, when every per-window attention
matrix passed to `UnfoldMatmulFold.call` is the `9 x 9` identity, the
layer output at spatial position `(i, j)` and channel `c` equals
`vv[i, j, c]` multiplied by the number of extracted `3 x 3` windows of the
padded input that cover the corresponding padded position
`(i + 1, j + 1)`: `fold_overlap_1` is the overlap-add adjoint of the
unfold step. -/
theorem umf_identity_fold (H W heads key : ℕ) (vv : ℕ → ℕ → ℕ → ℚ)
    (i j c : ℕ) (hi : i < H) (hj : j < W) (hc : c < heads * key) :
    umfCall H W ((H + 1) / 2) ((W + 1) / 2) heads key vv idAttn9 i j c =
      vv i j c * (windowCover ((H + 1) / 2) ((W + 1) / 2) i j : ℚ) := by
  have hP : pad2 1 H W vv (i + 1) (j + 1) c = vv i j c := by
    simp only [pad2]
    rw [if_pos ⟨by omega, by omega, by omega, by omega⟩]
    congr 1 <;> omega
  simp only [umfCall, umfFoldOverlap1]
  rw [show 1 + i = i + 1 from by omega, show 1 + j = j + 1 from by omega]
  rw [umfPhase_eval H W heads key vv 0 0 (i + 1) (j + 1) c (by omega)
      (by omega) hc,
    umfPhase_eval H W heads key vv 0 1 (i + 1) (j + 1) c (by omega)
      (by omega) hc,
    umfPhase_eval H W heads key vv 1 0 (i + 1) (j + 1) c (by omega)
      (by omega) hc,
    umfPhase_eval H W heads key vv 1 1 (i + 1) (j + 1) c (by omega)
      (by omega) hc]
  rw [windowCover_eq, rowCover_phases, rowCover_phases]
  by_cases hA0 : phaseRowOK ((H + 1) / 2) 0 (i + 1) <;>
    by_cases hA1 : phaseRowOK ((H + 1) / 2) 1 (i + 1) <;>
      by_cases hB0 : phaseRowOK ((W + 1) / 2) 0 (j + 1) <;>
        by_cases hB1 : phaseRowOK ((W + 1) / 2) 1 (j + 1) <;>
          simp [hA0, hA1, hB0, hB1, hP] <;> push_cast <;> ring

/-- Witness for `umf_identity_fold`: a `2 x 2` value grid of ones, one
head, one channel; position `(0, 0)` sits at padded position `(1, 1)`,
covered only by the window of patch `(0, 0)`, so the output there is
`1 * 1`. -/
theorem umf_identity_fold_witness :
    (0 : ℕ) < 2 ∧ (0 : ℕ) < 1 * 1 ∧
    umfCall 2 2 ((2 + 1) / 2) ((2 + 1) / 2) 1 1 (fun _ _ _ => (1 : ℚ))
        idAttn9 0 0 0 =
      (fun _ _ _ : ℕ => (1 : ℚ)) 0 0 0 *
        (windowCover ((2 + 1) / 2) ((2 + 1) / 2) 0 0 : ℚ) :=
  ⟨by norm_num, by norm_num,
    umf_identity_fold 2 2 1 1 (fun _ _ _ => (1 : ℚ)) 0 0 0 (by norm_num)
      (by norm_num) (by norm_num)⟩

/-! ## Outlook attention, two variants (volo.py, lines 134-197)

Both variants are embedded with their learned weights explicit
(`Wv`: value Dense, no bias; `Wa`/`ba`: attention-weight Dense;
`Wo`/`bo`: output Dense), the shared scale `qk_scale =
sqrt(embed_dim // num_head)` as a rational parameter `qkScale` (both
variants compute it by the same formula, so the comparison passes the same
value to both), and `tf.nn.softmax` over the last axis as a function
parameter `sm` applied to each logit row (softmax is not expressible in
exact rational arithmetic; a theorem needing one of its values states it
as a hypothesis).  Dropout rates are 0 (the defaults). -/

/-- `keras.layers.Dense` on the channel axis: `kernel[in][out]`, plus
bias. -/
def dense (Cin : ℕ) (Wk : ℕ → ℕ → ℚ) (bias : ℕ → ℚ)
    (x : ℕ → ℕ → ℕ → ℚ) : ℕ → ℕ → ℕ → ℚ :=
  fun i j e => sumN Cin (fun c => x i j c * Wk c e) + bias e

/-- `keras.layers.AveragePooling2D(pool_size=p, strides=p)` (default VALID
padding). -/
def avgPool2D (p : ℕ) (x : ℕ → ℕ → ℕ → ℚ) : ℕ → ℕ → ℕ → ℚ :=
  fun a b c =>
    sumN p (fun di => sumN p (fun dj => x (p * a + di) (p * b + dj) c)) /
      ((p * p : ℕ) : ℚ)

/-- `outlook_attention` (volo.py lines 134-160) with its defaults
`kernel_size=3, padding=1, strides=2` and zero dropout: value Dense;
attention weights from `AveragePooling2D(pool_size=2, strides=2)`, Dense
to `3^4 * num_head` channels, divide by `qk_scale`, reshape to
`[hh, ww, num_head, 9, 9]` (`r = (h*9 + m)*9 + n`), softmax on the last
axis; `UnfoldMatmulFold`; output Dense. -/
def outlook_attention (H W C E nh : ℕ) (qkScale : ℚ)
    (sm : (ℕ → ℚ) → ℕ → ℚ) (Wv Wa : ℕ → ℕ → ℚ) (ba : ℕ → ℚ)
    (Wo : ℕ → ℕ → ℚ) (bo : ℕ → ℚ) (x : ℕ → ℕ → ℕ → ℚ) : ℕ → ℕ → ℕ → ℚ :=
  let hh := (H + 1) / 2
  let ww := (W + 1) / 2
  let key := E / nh
  let vv := dense C Wv (fun _ => 0) x
  let attnW := fun p q h m n2 =>
    sm (fun n3 => dense C Wa ba (avgPool2D 2 x) p q ((h * 9 + m) * 9 + n3) /
      qkScale) n2
  dense E Wo bo (umfCall H W hh ww nh key vv attnW)

/-- `outlook_attention_simple` (volo.py lines 163-197) with its default
`kernel_size=3` and zero dropout: zero-pad bottom/right to a multiple of 3
(the zero extension; the final `out[:, :-padded, :-padded]` slice is the
restriction to `i < H, j < W` below); value Dense; reshape/transpose the
value grid into disjoint `3 x 3` windows
(`vv2[p, q, h, m, d] = vv[3p + m/3, 3q + m%3, h*key + d]`); attention
weights from `AveragePooling2D(pool_size=3, strides=3)`, Dense, divide by
`qk_scale`, reshape, softmax; per-window matmul; reshape/transpose back;
output Dense. -/
def outlook_attention_simple (H W C E nh : ℕ) (qkScale : ℚ)
    (sm : (ℕ → ℚ) → ℕ → ℚ) (Wv Wa : ℕ → ℕ → ℚ) (ba : ℕ → ℚ)
    (Wo : ℕ → ℕ → ℚ) (bo : ℕ → ℚ) (x : ℕ → ℕ → ℕ → ℚ) : ℕ → ℕ → ℕ → ℚ :=
  let key := E / nh
  let xp := fun i2 j2 c => if i2 < H ∧ j2 < W then x i2 j2 c else 0
  let vv := dense C Wv (fun _ => 0) xp
  let vv2 := fun p q h m d => vv (3 * p + m / 3) (3 * q + m % 3) (h * key + d)
  let attnW := fun p q h m n2 =>
    sm (fun n3 => dense C Wa ba (avgPool2D 3 xp) p q ((h * 9 + m) * 9 + n3) /
      qkScale) n2
  let o1 := fun p q h m d => sumN 9 (fun n2 => attnW p q h m n2 * vv2 p q h n2 d)
  dense E Wo bo
    (fun i2 j2 e => o1 (i2 / 3) (j2 / 3) (e / key) (i2 % 3 * 3 + j2 % 3) (e % key))

/-- Modelled from the spec ("a reshape-based equivalent without explicit
patch extraction"): `outlook_attention_simple` with the reshape/transpose
window gathering `vv2` replaced by explicit patch extraction —
`tf.image.extract_patches` with `sizes = strides = kernel_size = 3`
(non-overlapping windows), VALID, reshaped to `[hh, ww, 9, num_head, key]`
exactly as `outlook_attention` reshapes its unfolded patches. -/
def outlook_attention_simple_via_patches (H W C E nh : ℕ) (qkScale : ℚ)
    (sm : (ℕ → ℚ) → ℕ → ℚ) (Wv Wa : ℕ → ℕ → ℚ) (ba : ℕ → ℚ)
    (Wo : ℕ → ℕ → ℚ) (bo : ℕ → ℚ) (x : ℕ → ℕ → ℕ → ℚ) : ℕ → ℕ → ℕ → ℚ :=
  let key := E / nh
  let xp := fun i2 j2 c => if i2 < H ∧ j2 < W then x i2 j2 c else 0
  let vv := dense C Wv (fun _ => 0) xp
  let vv2 := fun p q h m d =>
    tfExtractPatchesFlat 3 3 H W E false vv p q (m * E + (h * key + d))
  let attnW := fun p q h m n2 =>
    sm (fun n3 => dense C Wa ba (avgPool2D 3 xp) p q ((h * 9 + m) * 9 + n3) /
      qkScale) n2
  let o1 := fun p q h m d => sumN 9 (fun n2 => attnW p q h m n2 * vv2 p q h n2 d)
  dense E Wo bo
    (fun i2 j2 e => o1 (i2 / 3) (j2 / 3) (e / key) (i2 % 3 * 3 + j2 % 3) (e % key))

/-- C1 as stated, parametric in the softmax implementation `sm` (shared by
both variants, as are all learned weights and `qk_scale`): the two
variants are extensionally equal on every input whose height and width
both variants handle (divisible by `strides = 2` and by
`kernel_size = 3`). -/
def OutlookClaim (sm : (ℕ → ℚ) → ℕ → ℚ) : Prop :=
  ∀ H W C E nh : ℕ, ∀ qkScale : ℚ, ∀ Wv Wa : ℕ → ℕ → ℚ, ∀ ba : ℕ → ℚ,
    ∀ Wo : ℕ → ℕ → ℚ, ∀ bo : ℕ → ℚ, ∀ x : ℕ → ℕ → ℕ → ℚ,
    H % 6 = 0 → W % 6 = 0 →
    ∀ i j e, i < H → j < W → e < E →
      outlook_attention H W C E nh qkScale sm Wv Wa ba Wo bo x i j e =
        outlook_attention_simple H W C E nh qkScale sm Wv Wa ba Wo bo x i j e

/-- Dirac input: 1 at spatial position `(1, 1)`, any channel. -/
def deltaImg : ℕ → ℕ → ℕ → ℚ := fun i j _ => if i = 1 ∧ j = 1 then 1 else 0

/-- The uniform weighting `1/9` — the value the real softmax takes at every
entry of a constant (here zero) logit row of length 9. -/
def smUniform : (ℕ → ℚ) → ℕ → ℚ := fun _ _ => 1 / 9

/-- Evaluation of the unfold-matmul-fold variant on the counterexample
configuration: `6 x 6` input, one channel/head, identity value and output
weights, zero attention weights (so every logit row is zero and softmax is
uniform), Dirac input at `(1, 1)`.  Output position `(1, 1)` sits at
padded position `(2, 2)`, covered by the 4 overlapping windows, each
contributing `1/9`. -/
theorem outlook_full_eval :
    outlook_attention 6 6 1 1 1 1 smUniform (fun _ _ => 1) (fun _ _ => 0)
      (fun _ => 0) (fun _ _ => 1) (fun _ => 0) deltaImg 1 1 0 = 4 / 9 := by
  norm_num [outlook_attention, dense, smUniform, umfCall, umfFoldOverlap1,
    umfPadOverlap, umfFoldPad, umfMM, umfPatchesR, tfExtractPatchesFlat,
    tfExtractPatches, tfPadTop, pad2, deltaImg, sumN]

/-- Evaluation of the reshape-based variant on the same configuration:
position `(1, 1)` lies in the single disjoint window `(0, 0)`, which
contributes `1/9` once. -/
theorem outlook_simple_eval :
    outlook_attention_simple 6 6 1 1 1 1 smUniform (fun _ _ => 1)
      (fun _ _ => 0) (fun _ => 0) (fun _ _ => 1) (fun _ => 0) deltaImg 1 1 0 =
      1 / 9 := by
  norm_num [outlook_attention_simple, dense, smUniform, deltaImg, sumN]

/-- C1 counterexample: the claim fails for the uniform softmax values that
the real softmax takes on this configuration (every logit row is zero, so
`tf.nn.softmax` returns exactly `1/9` everywhere, the value `smUniform`
supplies): the two variants give `4/9` and `1/9` at position `(1, 1)`. -/
theorem outlook_variants_counterexample : ¬ OutlookClaim smUniform := by
  intro hcl
  have h := hcl 6 6 1 1 1 1 (fun _ _ => 1) (fun _ _ => 0) (fun _ => 0)
    (fun _ _ => 1) (fun _ => 0) deltaImg (by norm_num) (by norm_num) 1 1 0
    (by norm_num) (by norm_num) (by norm_num)
  rw [outlook_full_eval, outlook_simple_eval] at h
  norm_num at h

/-- `umfCall` only reads its attention argument at window entries
`n2 < 9`. -/
theorem umfCall_attn_congr (H W hh ww heads key : ℕ)
    (vv : ℕ → ℕ → ℕ → ℚ) (attn1 attn2 : ℕ → ℕ → ℕ → ℕ → ℕ → ℚ)
    (hext : ∀ p q h m n2, n2 < 9 → attn1 p q h m n2 = attn2 p q h m n2) :
    ∀ i j c, umfCall H W hh ww heads key vv attn1 i j c =
      umfCall H W hh ww heads key vv attn2 i j c := by
  intro i j c
  have hmm : ∀ p q a b cc,
      umfMM key attn1 (umfPatchesR H W heads key vv) p q a b cc =
        umfMM key attn2 (umfPatchesR H W heads key vv) p q a b cc := by
    intro p q a b cc
    simp only [umfMM]
    apply sumN_congr
    intro m2 hm2
    rw [hext _ _ _ _ _ hm2]
  simp only [umfCall, umfFoldOverlap1, umfPadOverlap, umfFoldPad, hmm]

/-- `outlook_attention` depends on the softmax only through its values on
the nine entries of each logit row. -/
theorem outlook_attention_sm_congr (H W C E nh : ℕ) (qkScale : ℚ)
    (sm1 sm2 : (ℕ → ℚ) → ℕ → ℚ) (Wv Wa : ℕ → ℕ → ℚ) (ba : ℕ → ℚ)
    (Wo : ℕ → ℕ → ℚ) (bo : ℕ → ℚ) (x : ℕ → ℕ → ℕ → ℚ)
    (hext : ∀ p q h m n2, n2 < 9 →
      sm1 (fun n3 =>
        dense C Wa ba (avgPool2D 2 x) p q ((h * 9 + m) * 9 + n3) / qkScale) n2 =
      sm2 (fun n3 =>
        dense C Wa ba (avgPool2D 2 x) p q ((h * 9 + m) * 9 + n3) / qkScale) n2) :
    ∀ i j e, outlook_attention H W C E nh qkScale sm1 Wv Wa ba Wo bo x i j e =
      outlook_attention H W C E nh qkScale sm2 Wv Wa ba Wo bo x i j e := by
  intro i j e
  simp only [outlook_attention, dense]
  congr 1
  apply sumN_congr
  intro c hc
  congr 1
  exact umfCall_attn_congr H W ((H + 1) / 2) ((W + 1) / 2) nh (E / nh) _ _ _
    (fun p q h m n2 hn => hext p q h m n2 hn) i j c

/-- `outlook_attention_simple` likewise only reads the softmax values on
the nine entries of each logit row. -/
theorem outlook_simple_sm_congr (H W C E nh : ℕ) (qkScale : ℚ)
    (sm1 sm2 : (ℕ → ℚ) → ℕ → ℚ) (Wv Wa : ℕ → ℕ → ℚ) (ba : ℕ → ℚ)
    (Wo : ℕ → ℕ → ℚ) (bo : ℕ → ℚ) (x : ℕ → ℕ → ℕ → ℚ)
    (hext : ∀ p q h m n2, n2 < 9 →
      sm1 (fun n3 =>
        dense C Wa ba
          (avgPool2D 3 (fun i2 j2 c => if i2 < H ∧ j2 < W then x i2 j2 c else 0))
          p q ((h * 9 + m) * 9 + n3) / qkScale) n2 =
      sm2 (fun n3 =>
        dense C Wa ba
          (avgPool2D 3 (fun i2 j2 c => if i2 < H ∧ j2 < W then x i2 j2 c else 0))
          p q ((h * 9 + m) * 9 + n3) / qkScale) n2) :
    ∀ i j e,
      outlook_attention_simple H W C E nh qkScale sm1 Wv Wa ba Wo bo x i j e =
        outlook_attention_simple H W C E nh qkScale sm2 Wv Wa ba Wo bo x i j e := by
  intro i j e
  simp only [outlook_attention_simple, dense]
  congr 1
  apply sumN_congr
  intro c hc
  congr 1
  apply sumN_congr
  intro n2 hn2
  congr 1
  exact hext _ _ _ _ n2 hn2

/-- Robustness of the counterexample against the softmax model: for every
softmax implementation that maps a zero logit row to the uniform weights
`1/9` on its nine entries — which the real `tf.nn.softmax` does — the two
variants take the values `4/9` and `1/9` at position `(1, 1)` of the
configuration of `outlook_full_eval`; the disagreement does not depend on
modelling softmax as `smUniform`. -/
theorem outlook_variants_differ_any_softmax (sm : (ℕ → ℚ) → ℕ → ℚ)
    (hsm : ∀ v : ℕ → ℚ, (∀ n, v n = 0) → ∀ n, n < 9 → sm v n = 1 / 9) :
    outlook_attention 6 6 1 1 1 1 sm (fun _ _ => 1) (fun _ _ => 0)
        (fun _ => 0) (fun _ _ => 1) (fun _ => 0) deltaImg 1 1 0 = 4 / 9 ∧
    outlook_attention_simple 6 6 1 1 1 1 sm (fun _ _ => 1) (fun _ _ => 0)
        (fun _ => 0) (fun _ _ => 1) (fun _ => 0) deltaImg 1 1 0 = 1 / 9 := by
  constructor
  · have hcongr := outlook_attention_sm_congr 6 6 1 1 1 1 sm smUniform
      (fun _ _ => 1) (fun _ _ => 0) (fun _ => 0) (fun _ _ => 1) (fun _ => 0)
      deltaImg ?_ 1 1 0
    · rw [hcongr, outlook_full_eval]
    · intro p q h m n2 hn
      rw [hsm _ (fun n => by simp [dense, sumN]) n2 hn]
      rfl
  · have hcongr := outlook_simple_sm_congr 6 6 1 1 1 1 sm smUniform
      (fun _ _ => 1) (fun _ _ => 0) (fun _ => 0) (fun _ _ => 1) (fun _ => 0)
      deltaImg ?_ 1 1 0
    · rw [hcongr, outlook_simple_eval]
    · intro p q h m n2 hn
      rw [hsm _ (fun n => by simp [dense, sumN]) n2 hn]
      rfl

/-- C1 (amended): the reshape-based variant `outlook_attention_simple` is
extensionally equal to the same attention computed with explicit
non-overlapping patch extraction
(`tf.image.extract_patches, sizes = strides = kernel_size = 3`): its
reshape/transpose window gathering is "a reshape-based equivalent without
explicit patch extraction" of that unfold.  (It is **not** extensionally
equal to `outlook_attention`, whose stride-2 windows overlap —
`outlook_variants_counterexample`.) -/
theorem outlook_simple_patch_equiv (H W C E nh : ℕ) (qkScale : ℚ)
    (sm : (ℕ → ℚ) → ℕ → ℚ) (Wv Wa : ℕ → ℕ → ℚ) (ba : ℕ → ℚ)
    (Wo : ℕ → ℕ → ℚ) (bo : ℕ → ℚ) (x : ℕ → ℕ → ℕ → ℚ)
    (hH : H % 3 = 0) (hW : W % 3 = 0) :
    ∀ i j e, i < H → j < W →
      outlook_attention_simple H W C E nh qkScale sm Wv Wa ba Wo bo x i j e =
        outlook_attention_simple_via_patches H W C E nh qkScale sm Wv Wa ba Wo
          bo x i j e := by
  intro i j e hi hj
  simp only [outlook_attention_simple, outlook_attention_simple_via_patches]
  simp only [dense]
  congr 1
  apply sumN_congr
  intro e2 he2
  congr 1
  apply sumN_congr
  intro n2 hn2
  congr 1
  -- vv2 read = extract_patches read, at channel e2 = (e2/key)*key + e2%key
  have hE : 0 < E := by omega
  have hcc : e2 / (E / nh) * (E / nh) + e2 % (E / nh) = e2 :=
    Nat.div_add_mod' e2 (E / nh)
  rw [hcc]
  simp only [tfExtractPatchesFlat]
  have hr3C : (n2 * E + e2) / (3 * E) = n2 / 3 := by
    rw [show 3 * E = E * 3 from by ring, ← Nat.div_div_eq_div_mul,
      show n2 * E + e2 = e2 + E * n2 from by ring,
      Nat.add_mul_div_left _ _ hE, Nat.div_eq_of_lt he2, Nat.zero_add]
  have hrm : (n2 * E + e2) / E % 3 = n2 % 3 := by
    rw [show n2 * E + e2 = e2 + E * n2 from by ring,
      Nat.add_mul_div_left _ _ hE, Nat.div_eq_of_lt he2, Nat.zero_add]
  have hrc : (n2 * E + e2) % E = e2 := by
    rw [show n2 * E + e2 = e2 + n2 * E from by ring,
      Nat.add_mul_mod_self_right, Nat.mod_eq_of_lt he2]
  rw [hr3C, hrm, hrc]
  simp only [tfExtractPatches, tfPadTop_valid]
  rw [if_pos ⟨Nat.zero_le _, by omega, Nat.zero_le _, by omega⟩]
  simp [dense]

/-- Witness for `outlook_simple_patch_equiv`: `3 x 3` input, one
channel/head, uniform softmax values, Dirac input, evaluated at position
`(1, 1)`. -/
theorem outlook_simple_patch_equiv_witness :
    3 % 3 = 0 ∧ (1 : ℕ) < 3 ∧
    outlook_attention_simple 3 3 1 1 1 1 smUniform (fun _ _ => 1)
        (fun _ _ => 0) (fun _ => 0) (fun _ _ => 1) (fun _ => 0) deltaImg 1 1 0 =
      outlook_attention_simple_via_patches 3 3 1 1 1 1 smUniform
        (fun _ _ => 1) (fun _ _ => 0) (fun _ => 0) (fun _ _ => 1) (fun _ => 0)
        deltaImg 1 1 0 :=
  ⟨by norm_num, by norm_num,
    outlook_simple_patch_equiv 3 3 1 1 1 1 smUniform (fun _ _ => 1)
      (fun _ _ => 0) (fun _ => 0) (fun _ _ => 1) (fun _ => 0) deltaImg
      (by norm_num) (by norm_num) 1 1 0 (by norm_num) (by norm_num)⟩

end KerasCVAttn
